import Mathlib

/-!
decimal18: fixed-point decimals over a 256-bit unsigned integer.

A shallow embedding of `decimal.go` (package `decimal18`) and of the part of
`github.com/holiman/uint256` the package calls.

* A `uint256.Int` value is a natural number below `2^256` (`Uint256`). The
  library is not part of the package; its methods follow its documentation:
  `Add`, `Sub`, `Mul` and `Exp` are modulo `2^256`, `Div` and `Mod` by zero
  set the result to 0, a method may have its destination among its operands,
  and `FromDecimal` reads digits after at most one leading `+`.
* A Go `string` is the list of its characters (`GoString`); `len` counts
  UTF-8 bytes.
* A Go `int` is a mathematical integer wrapped to 64 bits by `goInt`.
* The methods of `*Decimal` write into a destination `z` that may be the
  same object as an operand, so they are state transformers over a `Store`
  that maps addresses to `uint256.Int` values.
* A `panic` and a returned `error` are both a `Fault`; a function that can
  raise either returns `Except Fault _`.
-/

namespace Decimal18

/-! ## Go strings, Go ints, faults -/

/-- A Go string, as the list of its characters. -/
abbrev GoString := List Char

/-- Go `len(s)`: the number of bytes of the UTF-8 encoding of `s`. -/
def len (s : GoString) : Nat := (s.map Char.utf8Size).sum

/-- A Go `int` (64 bits, two's complement): the representative of `i` in
`[-2^63, 2^63)`. -/
def goInt (i : Int) : Int := (i + 2 ^ 63) % 2 ^ 64 - 2 ^ 63

/-- The ways a call can fail: a `panic`, or one of the `error` values that
`Parse` returns. `io.EOF`, `strconv.ErrSyntax` (which `ParseUint` wraps in a
`NumError`) and `ErrBig256Range` come from `uint256.FromDecimal`; the format
error `fmt.Errorf("unsupported fixed point format: %q", s)` is built by
`Parse` itself. -/
inductive Fault where
  | panic (msg : String)
  | EOF
  | ErrSyntax
  | ErrBig256Range
  | unsupportedFormat (s : GoString)
  deriving DecidableEq, Repr

/-- The text of a fault; `quote` stands for the `%q` verb of `fmt.Errorf`
(`strconv.Quote`). -/
def Fault.message (quote : GoString → GoString) : Fault → GoString
  | .panic msg => msg.toList
  | .EOF => "EOF".toList
  | .ErrSyntax => "invalid syntax".toList
  | .ErrBig256Range => "hex number > 256 bits".toList
  | .unsupportedFormat s => "unsupported fixed point format: ".toList ++ quote s

deriving instance DecidableEq for Except

/-! ## `uint256.Int` -/

/-- A `uint256.Int`: an unsigned integer of 256 bits. -/
structure Uint256 where
  val : Nat
  isLt : val < 2 ^ 256
  deriving DecidableEq

namespace Uint256

/-- The value `n` reduced to 256 bits. -/
def ofNat (n : Nat) : Uint256 := ⟨n % 2 ^ 256, Nat.mod_lt _ (by norm_num)⟩

/-- `uint256.NewInt(v)` for a `uint64` value `v`. -/
def NewInt (v : Nat) : Uint256 := ofNat (v % 2 ^ 64)

/-- `z.Add(x, y)`: the sum modulo `2^256`. -/
def Add (x y : Uint256) : Uint256 := ofNat (x.val + y.val)

/-- `z.Sub(x, y)`: the difference modulo `2^256`. -/
def Sub (x y : Uint256) : Uint256 := ofNat (x.val + 2 ^ 256 - y.val)

/-- `z.Mul(x, y)`: the product modulo `2^256`. -/
def Mul (x y : Uint256) : Uint256 := ofNat (x.val * y.val)

/-- `z.Div(x, y)`: the quotient `x / y`; if `y == 0`, `z` is set to 0. -/
def Div (x y : Uint256) : Uint256 :=
  if y.val = 0 then ofNat 0 else ofNat (x.val / y.val)

/-- `z.Mod(x, y)`: the remainder `x % y`; if `y == 0`, `z` is set to 0. -/
def Mod (x y : Uint256) : Uint256 :=
  if y.val = 0 then ofNat 0 else ofNat (x.val % y.val)

/-- `z.Exp(base, exponent)`: `base ^ exponent` modulo `2^256`. -/
def Exp (base exponent : Uint256) : Uint256 := ofNat (base.val ^ exponent.val)

/-- `z.Gt(x)`. -/
def Gt (z x : Uint256) : Bool := decide (x.val < z.val)

/-- `z.Lt(x)`. -/
def Lt (z x : Uint256) : Bool := decide (z.val < x.val)

/-- The character of the decimal digit `d`. -/
def digitChar (d : Nat) : Char := Char.ofNat (48 + d)

/-- Whether `c` is one of `'0'` .. `'9'`. -/
def isDigit (c : Char) : Bool := decide (48 ≤ c.toNat) && decide (c.toNat ≤ 57)

/-- The value of the decimal digit `c`. -/
def digitVal (c : Char) : Nat := c.toNat - 48

/-- The digits of `n`, most significant first, put in front of `acc`; `fuel`
bounds the number of digits written. -/
def decAux : Nat → Nat → GoString → GoString
  | 0, _, acc => acc
  | fuel + 1, n, acc =>
    if n < 10 then digitChar n :: acc
    else decAux fuel (n / 10) (digitChar (n % 10) :: acc)

/-- `z.Dec()`: the decimal representation of `z`, without sign, padding or
leading zeros (`"0"` for zero). A `uint256.Int` has at most 78 digits. -/
def Dec (z : Uint256) : GoString := decAux 78 z.val []

/-- The value of a string of decimal digits read in base 10. -/
def decVal (s : GoString) : Nat := s.foldl (fun acc c => acc * 10 + digitVal c) 0

/-- The loop of `SetFromDecimal` that removes leading zeros: it stops at the
first character that is not `'0'`, or at the last character. -/
def stripZeros : GoString → GoString
  | [] => []
  | [c] => [c]
  | c :: d :: cs => if c = '0' then stripZeros (d :: cs) else c :: d :: cs

/-- Go string comparison `s > t` (lexicographic). -/
def strGt : GoString → GoString → Bool
  | [], _ => false
  | _ :: _, [] => true
  | c :: cs, d :: ds => if d < c then true else if c < d then false else strGt cs ds

/-- The constant `twoPow256Sub1`: the decimal text of `2^256 - 1`. -/
def twoPow256Sub1 : GoString :=
  "115792089237316195423570985008687907853269984665640564039457584007913129639935".toList

/-- The helper `fromDecimal`: `io.EOF` on the empty string; otherwise the
string is read in chunks of 19 characters by `strconv.ParseUint(_, 10, 64)`,
which fails on any character that is not a digit, and the chunks are added
up with their powers of ten. -/
def fromDecimal (bs : GoString) : Except Fault Uint256 :=
  if bs = [] then .error .EOF
  else if bs.all isDigit then .ok (ofNat (decVal bs))
  else .error .ErrSyntax

/-- The first step of `SetFromDecimal`: at most one leading `+` is removed. -/
def trimPlus : GoString → GoString
  | c :: cs => if c = '+' then cs else c :: cs
  | [] => []

/-- The second step of `SetFromDecimal`: if the text starts with `'0'`, its
leading zeros are removed by the loop `stripZeros`. -/
def trimZeros : GoString → GoString
  | c :: cs => if c = '0' then stripZeros (c :: cs) else c :: cs
  | [] => []

/-- `uint256.FromDecimal(s)` (`SetFromDecimal` on a new `Int`): at most one
leading `+` is removed, then the leading zeros; a text longer than
`twoPow256Sub1`, or as long and greater, is out of range. -/
def FromDecimal (s : GoString) : Except Fault Uint256 :=
  let s2 := trimZeros (trimPlus s)
  if len s2 < len twoPow256Sub1 then fromDecimal s2
  else if len s2 = len twoPow256Sub1 then
    if strGt s2 twoPow256Sub1 then .error .ErrBig256Range else fromDecimal s2
  else .error .ErrBig256Range

end Uint256

/-! ## The package `decimal18` -/

/-- The constant `PRECISION`. -/
def PRECISION : Int := 18

/-- The package variable `zero`. -/
def zero : Uint256 := Uint256.NewInt 0

/-- The table `units`: `units[i] = 10^i` for `i = 0 .. 18`. -/
def unitsTable : List Nat :=
  [1, 10, 100, 1000, 10000, 100000, 1000000, 10000000, 100000000, 1000000000,
   10000000000, 100000000000, 1000000000000, 10000000000000, 100000000000000,
   1000000000000000, 10000000000000000, 100000000000000000, 1000000000000000000]

/-- The entry `units[i]`. The table is private to the package and never
written, so an entry is used as a value. -/
def units (i : Nat) : Uint256 := Uint256.NewInt (unitsTable.getD i 0)

/-- The function `pow10`. -/
def pow10 (prec : Int) : Except Fault Uint256 :=
  if prec < 0 then .error (.panic "negative precision")
  else if prec ≤ PRECISION then .ok (units prec.toNat)
  else .ok (Uint256.Exp (units 1) (Uint256.NewInt (prec % 2 ^ 64).toNat))

/-- The type `Decimal` is `uint256.Int`. -/
abbrev Decimal := Uint256

/-- The method `z.Significant()`: the same object, as a `uint256.Int`. -/
abbrev Decimal.Significant (z : Decimal) : Uint256 := z

/-- The function `NewDecimal`; the result is a new object. -/
def NewDecimal (val : Uint256) (prec : Int) : Except Fault Decimal :=
  if prec > PRECISION then do
    let p ← pow10 (goInt (prec - PRECISION))
    pure (Uint256.Div val p)
  else do
    let p ← pow10 (goInt (PRECISION - prec))
    pure (Uint256.Mul val p)

/-- Go `strings.Split(s, ".")`. -/
def splitDot : GoString → List GoString
  | [] => [[]]
  | c :: cs =>
    if c = '.' then [] :: splitDot cs
    else match splitDot cs with
      | [] => [[c]]
      | p :: ps => (c :: p) :: ps

/-- Go `strings.Join(ss, ".")`. -/
def joinDot : List GoString → GoString
  | [] => []
  | [p] => p
  | p :: q :: r => p ++ '.' :: joinDot (q :: r)

/-- The function `Parse`. -/
def Parse (s : GoString) : Except Fault Decimal :=
  match splitDot s with
  | [_] => do
    let val ← Uint256.FromDecimal s
    NewDecimal val 0
  | [s0, s1] => do
    let val ← Uint256.FromDecimal (s0 ++ s1)
    NewDecimal val (len s1)
  | _ => .error (.unsupportedFormat s)

/-! ### Methods with a destination -/

/-- An address of a `Decimal` object. -/
abbrev Ptr := Nat

/-- The memory: the value held by the object at each address. -/
abbrev Store := Ptr → Uint256

/-- Writing `v` into the object at `p`. -/
def Store.set (h : Store) (p : Ptr) (v : Uint256) : Store :=
  fun q => if q = p then v else h q

/-- A call `z.f(x, y)` of a `uint256.Int` method: both operands are read,
then the result is written into `z` (the library allows `z` to be an
operand). The call returns `z`. -/
def Store.call (f : Uint256 → Uint256 → Uint256) (h : Store) (z x y : Ptr) : Store :=
  h.set z (f (h x) (h y))

/-- The method `z.IntPart(x)`. -/
def Decimal.IntPart (h : Store) (z x : Ptr) : Except Fault Store := do
  let p ← pow10 PRECISION
  pure (h.set z (Uint256.Div (h x) p))

/-- The method `z.FracPart(x)`. -/
def Decimal.FracPart (h : Store) (z x : Ptr) : Except Fault Store := do
  let p ← pow10 PRECISION
  pure (h.set z (Uint256.Mod (h x) p))

/-- The method `z.Add(x, y)`. -/
def Decimal.Add (h : Store) (z x y : Ptr) : Store := h.call Uint256.Add z x y

/-- The method `z.Sub(x, y)`. -/
def Decimal.Sub (h : Store) (z x y : Ptr) : Store := h.call Uint256.Sub z x y

/-- The method `z.MulInt(x, y)`, with `y` a `uint256.Int` value. -/
def Decimal.MulInt (h : Store) (z x : Ptr) (y : Uint256) : Store :=
  h.set z (Uint256.Mul (h x) y)

/-- The method `z.DivInt(x, y)`, with `y` a `uint256.Int` value. -/
def Decimal.DivInt (h : Store) (z x : Ptr) (y : Uint256) : Store :=
  h.set z (Uint256.Div (h x) y)

/-- The method `z.Shift(x, shift)`: for `shift == 0` it returns `z` and writes
nothing; the exponent `-shift` is computed as a Go `int`. -/
def Decimal.Shift (h : Store) (z x : Ptr) (shift : Int) : Except Fault Store :=
  if shift = 0 then pure h
  else if shift > 0 then do
    let p ← pow10 shift
    pure (Decimal.MulInt h z x p)
  else do
    let p ← pow10 (goInt (-shift))
    pure (Decimal.DivInt h z x p)

/-- The method `z.Mul(x, y)`: the inner call `z.Mul(x, y)` of `uint256` writes
the product into `z`; then `pow10(PRECISION)` is evaluated and `z.Div(z, _)`
writes the quotient into `z`. -/
def Decimal.Mul (h : Store) (z x y : Ptr) : Except Fault Store := do
  let h1 := h.call Uint256.Mul z x y
  let p ← pow10 PRECISION
  pure (h1.set z (Uint256.Div (h1 z) p))

/-- The method `z.Div(x, y)`: `pow10(PRECISION)` is evaluated, the inner call
`z.Mul(x, _)` writes the product into `z`, and then `z.Div(z, y)` reads `z` and
`y` and writes the quotient into `z`. -/
def Decimal.Div (h : Store) (z x y : Ptr) : Except Fault Store := do
  let p ← pow10 PRECISION
  let h1 := h.set z (Uint256.Mul (h x) p)
  pure (h1.call Uint256.Div z z y)

/-- The method `z.Mod(x, y)`. -/
def Decimal.Mod (h : Store) (z x y : Ptr) : Store := h.call Uint256.Mod z x y

/-- The method `z.Gt(x)`. -/
def Decimal.Gt (z x : Decimal) : Bool := Uint256.Gt z x

/-- The method `z.Gte(x)`. -/
def Decimal.Gte (z x : Decimal) : Bool := !Uint256.Lt z x

/-- The method `z.Lt(x)`. -/
def Decimal.Lt (z x : Decimal) : Bool := Uint256.Lt z x

/-- The method `z.Lte(x)`. -/
def Decimal.Lte (z x : Decimal) : Bool := !Uint256.Gt z x

/-- The store in which `String` runs: `z` lives at address 0; addresses 1 and
2 are the two objects made by `new(Decimal)`, zero-initialised. -/
def stringStore (z : Decimal) : Store := fun p => if p = 0 then z else Uint256.ofNat 0

/-- The method `z.String()`. -/
def Decimal.String (z : Decimal) : Except Fault GoString := do
  let h1 ← Decimal.IntPart (stringStore z) 1 0
  let h2 ← Decimal.FracPart h1 2 0
  let intPart := h2 1
  let fracPart := h2 2
  if Uint256.Gt fracPart zero then
    pure (Uint256.Dec intPart ++ ".".toList ++ Uint256.Dec fracPart)
  else
    pure (Uint256.Dec intPart)

/-- A fractional part without its trailing zeros. -/
def stripTrailingZeros (f : GoString) : GoString :=
  (f.reverse.dropWhile (fun c => c == '0')).reverse

/-- The text that the round-trip property expects from `String(Parse(s))`, in
the words of the specification: `s` with the trailing zeros of the fractional
part stripped, and with no `'.'` when the fraction is zero. -/
def roundTripText (s : GoString) : GoString :=
  match splitDot s with
  | [a, f] => if stripTrailingZeros f = [] then a else a ++ '.' :: stripTrailingZeros f
  | _ => s

/-- The shortest base-10 rendering of `n`, with no padding and no stripping
of zeros, in the words of the specification: the digits that Lean writes for
the number `n`. -/
def shortestDecimal (n : Nat) : GoString := Nat.toDigits 10 n

/-- The store whose objects at addresses 0, 1, 2, .. hold the numbers of
`vs` (reduced to 256 bits); every other object holds 0. -/
def Store.ofList (vs : List Nat) : Store := fun p => Uint256.ofNat (vs.getD p 0)

/-- The significand of the object at `z` after a call that may fail. -/
def sigAt (r : Except Fault Store) (z : Ptr) : Except Fault Nat :=
  r.map (fun h => (h z).val)

/-! ## Basic facts -/

theorem Uint256.ext {a b : Uint256} (h : a.val = b.val) : a = b := by
  cases a; cases b; simp_all

theorem Uint256.ofNat_val (n : Nat) : (Uint256.ofNat n).val = n % 2 ^ 256 := rfl

theorem Uint256.ofNat_val_of_lt {n : Nat} (h : n < 2 ^ 256) : (Uint256.ofNat n).val = n := by
  rw [Uint256.ofNat_val, Nat.mod_eq_of_lt h]

theorem Uint256.ofNat_self (x : Uint256) : Uint256.ofNat x.val = x :=
  Uint256.ext (Uint256.ofNat_val_of_lt x.isLt)

theorem Uint256.Mul_val (x y : Uint256) : (Uint256.Mul x y).val = x.val * y.val % 2 ^ 256 := rfl

theorem Uint256.Div_val (x y : Uint256) : (Uint256.Div x y).val = x.val / y.val := by
  unfold Uint256.Div
  split
  · next h => simp [h, Uint256.ofNat_val]
  · exact Uint256.ofNat_val_of_lt (lt_of_le_of_lt (Nat.div_le_self _ _) x.isLt)

theorem Uint256.Mod_val (x y : Uint256) :
    (Uint256.Mod x y).val = if y.val = 0 then 0 else x.val % y.val := by
  unfold Uint256.Mod
  split
  · simp [Uint256.ofNat_val]
  · next h =>
    exact Uint256.ofNat_val_of_lt
      (lt_trans (Nat.mod_lt _ (Nat.pos_of_ne_zero h)) y.isLt)

theorem units_val {i : Nat} (hi : i ≤ 18) : (units i).val = 10 ^ i := by
  interval_cases i <;> rfl

theorem pow10_PRECISION : pow10 PRECISION = .ok (units 18) := rfl

theorem Store.set_same (h : Store) (p : Ptr) (v : Uint256) : h.set p v p = v := by
  simp [Store.set]

theorem Store.set_other (h : Store) {p q : Ptr} (v : Uint256) (hq : q ≠ p) :
    h.set p v q = h q := by
  simp [Store.set, hq]

/-! ## Multiplication and division -/

/-- What `z.Mul(x, y)` leaves in the store. -/
theorem Decimal.Mul_eq (h : Store) (z x y : Ptr) :
    Decimal.Mul h z x y
      = .ok (h.set z (Uint256.Div (Uint256.Mul (h x) (h y)) (units 18))) := by
  simp only [Decimal.Mul, pow10_PRECISION, Store.call, bind, Except.bind, pure, Except.pure]
  congr 1
  funext q
  by_cases hq : q = z <;> simp [Store.set, hq]

/-- What `z.Div(x, y)` leaves in the store when `z` is not the object `y`. -/
theorem Decimal.Div_eq_of_ne (h : Store) (z x y : Ptr) (hzy : z ≠ y) :
    Decimal.Div h z x y
      = .ok (h.set z (Uint256.Div (Uint256.Mul (h x) (units 18)) (h y))) := by
  simp only [Decimal.Div, pow10_PRECISION, Store.call, bind, Except.bind, pure, Except.pure]
  congr 1
  funext q
  have hyz : y ≠ z := fun e => hzy e.symm
  by_cases hq : q = z <;> simp [Store.set, hq, hyz]

/-- What `z.Div(x, z)` leaves in the store: the divisor is read after the
product has been written over it. -/
theorem Decimal.Div_eq_of_alias (h : Store) (z x : Ptr) :
    Decimal.Div h z x z
      = .ok (h.set z (Uint256.Div (Uint256.Mul (h x) (units 18))
          (Uint256.Mul (h x) (units 18)))) := by
  simp only [Decimal.Div, pow10_PRECISION, Store.call, bind, Except.bind, pure, Except.pure]
  congr 1
  funext q
  by_cases hq : q = z <;> simp [Store.set, hq]

/-- C1, as stated, fails: with `sig(x) = sig(y) = 2^128` the quotient
`floor(sig(x) * sig(y) / 10^18)` is below `2^256` and is not 0, but `Mul` leaves
the significand 0 in `z`, because the product `2^256` wraps to 0. -/
theorem C1_mul_wraps :
    (2 ^ 128 * 2 ^ 128 / 10 ^ 18 < 2 ^ 256)
      ∧ sigAt (Decimal.Mul (Store.ofList [0, 2 ^ 128, 2 ^ 128]) 0 1 2) 0 = .ok 0
      ∧ (2 ^ 128 * 2 ^ 128 / 10 ^ 18 ≠ 0)
      ∧ ((Store.ofList [0, 2 ^ 128, 2 ^ 128]) 1).val = 2 ^ 128
      ∧ ((Store.ofList [0, 2 ^ 128, 2 ^ 128]) 2).val = 2 ^ 128 := by
  decide

/-- C1, amended: for all Decimals `x` and `y` and every destination `z`
(an operand or not), `z.Mul(x, y)` returns without a fault, leaves the other
objects as they were, and leaves in `z` the significand
`floor(((sig(x) * sig(y)) mod 2^256) / 10^18)`: the intermediate product is
reduced modulo `2^256` before the division. So the significand is
`floor(sig(x) * sig(y) / 10^18)` whenever `sig(x) * sig(y) < 2^256`. -/
theorem C1_mul_sig (h : Store) (z x y : Ptr) :
    ∃ h1, Decimal.Mul h z x y = .ok h1
      ∧ (h1 z).val = ((h x).val * (h y).val % 2 ^ 256) / 10 ^ 18
      ∧ (∀ q, q ≠ z → h1 q = h q)
      ∧ ((h x).val * (h y).val < 2 ^ 256 →
          (h1 z).val = (h x).val * (h y).val / 10 ^ 18) := by
  refine ⟨_, Decimal.Mul_eq h z x y, ?_, ?_, ?_⟩
  · rw [Store.set_same, Uint256.Div_val, Uint256.Mul_val, units_val (le_refl 18)]
  · intro q hq
    exact Store.set_other h _ hq
  · intro hlt
    rw [Store.set_same, Uint256.Div_val, Uint256.Mul_val, units_val (le_refl 18),
      Nat.mod_eq_of_lt hlt]

/-- C2, as stated, fails: with `sig(x) = 2^255` and `sig(y) = 10^18` (the
value one) the quotient `floor(sig(x) * 10^18 / sig(y))` is `2^255`, below
`2^256`, but `Div` into a fresh destination leaves the significand 0, because
the product `2^255 * 10^18` wraps to 0. -/
theorem C2_div_wraps :
    ((Store.ofList [0, 2 ^ 255, 10 ^ 18]) 1).val = 2 ^ 255
      ∧ ((Store.ofList [0, 2 ^ 255, 10 ^ 18]) 2).val = 10 ^ 18
      ∧ (2 ^ 255 * 10 ^ 18 / 10 ^ 18 < 2 ^ 256)
      ∧ sigAt (Decimal.Div (Store.ofList [0, 2 ^ 255, 10 ^ 18]) 0 1 2) 0 = .ok 0
      ∧ (2 ^ 255 * 10 ^ 18 / 10 ^ 18 ≠ 0) := by
  decide

/-- C2, amended: for all Decimals `x` and `y` with `sig(y) ≠ 0`, `Div(x, y)`
written into a destination `z` that is not the object `y` returns without a
fault and leaves in `z` the significand
`floor(((sig(x) * 10^18) mod 2^256) / sig(y))`: the intermediate product is
reduced modulo `2^256` before the division. So the significand is
`floor(sig(x) * 10^18 / sig(y))` whenever `sig(x) * 10^18 < 2^256`. -/
theorem C2_div_sig (h : Store) (z x y : Ptr) (hzy : z ≠ y) (_hy : (h y).val ≠ 0) :
    ∃ h1, Decimal.Div h z x y = .ok h1
      ∧ (h1 z).val = ((h x).val * 10 ^ 18 % 2 ^ 256) / (h y).val
      ∧ ((h x).val * 10 ^ 18 < 2 ^ 256 →
          (h1 z).val = (h x).val * 10 ^ 18 / (h y).val) := by
  refine ⟨_, Decimal.Div_eq_of_ne h z x y hzy, ?_, ?_⟩
  · rw [Store.set_same, Uint256.Div_val, Uint256.Mul_val, units_val (le_refl 18)]
  · intro hlt
    rw [Store.set_same, Uint256.Div_val, Uint256.Mul_val, units_val (le_refl 18),
      Nat.mod_eq_of_lt hlt]

/-- The theorem `C2_div_sig` at `x = 10` and `y = 4` (significands `10 * 10^18`
and `4 * 10^18`), written into a third object. -/
theorem C2_div_sig_witness :
    ∃ h1, Decimal.Div (Store.ofList [0, 10 * 10 ^ 18, 4 * 10 ^ 18]) 0 1 2 = .ok h1
      ∧ (h1 0).val = (((Store.ofList [0, 10 * 10 ^ 18, 4 * 10 ^ 18]) 1).val * 10 ^ 18
          % 2 ^ 256) / ((Store.ofList [0, 10 * 10 ^ 18, 4 * 10 ^ 18]) 2).val
      ∧ (((Store.ofList [0, 10 * 10 ^ 18, 4 * 10 ^ 18]) 1).val * 10 ^ 18 < 2 ^ 256 →
          (h1 0).val = ((Store.ofList [0, 10 * 10 ^ 18, 4 * 10 ^ 18]) 1).val * 10 ^ 18
            / ((Store.ofList [0, 10 * 10 ^ 18, 4 * 10 ^ 18]) 2).val) :=
  C2_div_sig (Store.ofList [0, 10 * 10 ^ 18, 4 * 10 ^ 18]) 0 1 2 (by decide) (by decide)

/-! ## Aliasing of the destination -/

/-- The value that `Add`, `Sub`, `Mod` and `Mul` write into `z` is computed
from the values `x` and `y` held before the call, whether or not `z` is one of
them; `Div` does so when `z` is not the object `y`. -/
theorem alias_safe_operations (h : Store) (z x y : Ptr) :
    (Decimal.Add h z x y) z = Uint256.Add (h x) (h y)
      ∧ (Decimal.Sub h z x y) z = Uint256.Sub (h x) (h y)
      ∧ (Decimal.Mod h z x y) z = Uint256.Mod (h x) (h y)
      ∧ Decimal.Mul h z x y
          = .ok (h.set z (Uint256.Div (Uint256.Mul (h x) (h y)) (units 18)))
      ∧ (z ≠ y → Decimal.Div h z x y
          = .ok (h.set z (Uint256.Div (Uint256.Mul (h x) (units 18)) (h y)))) :=
  ⟨Store.set_same _ _ _, Store.set_same _ _ _, Store.set_same _ _ _,
    Decimal.Mul_eq h z x y, Decimal.Div_eq_of_ne h z x y⟩

/-- C3 at the failing input: `x` is one (`10^18`) and `z` is two
(`2 * 10^18`). Written into a fresh object, `Div(x, z)` is one half
(`5 * 10^17 = floor(10^18 * 10^18 / (2 * 10^18))`); but `z.Div(x, z)` leaves
the significand 1 in `z`. And for `z` one, `z.Div(z, z)` leaves the significand
1 in `z`, not `10^18`. -/
theorem C3_div_alias :
    ((Store.ofList [2 * 10 ^ 18, 10 ^ 18]) 0).val = 2 * 10 ^ 18
      ∧ ((Store.ofList [2 * 10 ^ 18, 10 ^ 18]) 1).val = 10 ^ 18
      ∧ sigAt (Decimal.Div (Store.ofList [2 * 10 ^ 18, 10 ^ 18]) 2 1 0) 2 = .ok (5 * 10 ^ 17)
      ∧ 10 ^ 18 * 10 ^ 18 / (2 * 10 ^ 18) = 5 * 10 ^ 17
      ∧ sigAt (Decimal.Div (Store.ofList [2 * 10 ^ 18, 10 ^ 18]) 0 1 0) 0 = .ok 1
      ∧ sigAt (Decimal.Div (Store.ofList [10 ^ 18]) 0 0 0) 0 = .ok 1 := by
  decide

/-! ## Division and remainder by zero -/

/-- C4, as stated, fails: with `sig(x) = 7 * 10^18` and `sig(y) = 0`, `Div(x, y)`
returns normally with the significand 0 in the destination, and so does
`Mod(x, y)`. -/
theorem C4_zero_divisor_silent :
    ((Store.ofList [1, 7 * 10 ^ 18, 0]) 2).val = 0
      ∧ sigAt (Decimal.Div (Store.ofList [1, 7 * 10 ^ 18, 0]) 0 1 2) 0 = .ok 0
      ∧ sigAt (.ok (Decimal.Mod (Store.ofList [1, 7 * 10 ^ 18, 0]) 0 1 2)) 0 = .ok 0 := by
  decide

/-- C4, amended: for every Decimal `x` and every Decimal `y` with significand
0, `Div(x, y)` and `Mod(x, y)` return a Decimal and report no failure; `Mod`
leaves the significand 0 in the destination, and so does `Div` when the
destination is not the object `y`. -/
theorem C4_zero_divisor (h : Store) (z x y : Ptr) (hy : (h y).val = 0) :
    (∃ h1, Decimal.Div h z x y = .ok h1 ∧ (z ≠ y → (h1 z).val = 0))
      ∧ ((Decimal.Mod h z x y) z).val = 0 := by
  constructor
  · by_cases hzy : z = y
    · subst hzy
      exact ⟨_, Decimal.Div_eq_of_alias h z x, fun hne => absurd rfl hne⟩
    · refine ⟨_, Decimal.Div_eq_of_ne h z x y hzy, fun _ => ?_⟩
      rw [Store.set_same, Uint256.Div_val, hy, Nat.div_zero]
  · show ((h.set z (Uint256.Mod (h x) (h y))) z).val = 0
    rw [Store.set_same, Uint256.Mod_val, if_pos hy]

/-- The theorem `C4_zero_divisor` at `x = 7` and `y = 0`, written into a third
object. -/
theorem C4_zero_divisor_witness :
    ((Store.ofList [1, 7 * 10 ^ 18, 0]) 2).val = 0
      ∧ (∃ h1, Decimal.Div (Store.ofList [1, 7 * 10 ^ 18, 0]) 0 1 2 = .ok h1
          ∧ (0 ≠ 2 → (h1 0).val = 0))
      ∧ ((Decimal.Mod (Store.ofList [1, 7 * 10 ^ 18, 0]) 0 1 2) 0).val = 0 :=
  ⟨by decide, C4_zero_divisor (Store.ofList [1, 7 * 10 ^ 18, 0]) 0 1 2 (by decide)⟩

/-! ## Decimal digits -/

namespace Uint256

theorem isDigit_iff (c : Char) : isDigit c = true ↔ 48 ≤ c.toNat ∧ c.toNat ≤ 57 := by
  simp [isDigit]

theorem digitVal_lt {c : Char} (hc : isDigit c = true) : digitVal c < 10 := by
  rw [isDigit_iff] at hc
  unfold digitVal
  omega

theorem digitChar_digitVal {c : Char} (hc : isDigit c = true) : digitChar (digitVal c) = c := by
  rw [isDigit_iff] at hc
  unfold digitChar digitVal
  have e : 48 + (c.toNat - 48) = c.toNat := by omega
  rw [e, Char.ofNat_toNat]

theorem digitVal_digitChar {d : Nat} (hd : d < 10) : digitVal (digitChar d) = d := by
  interval_cases d <;> rfl

theorem isDigit_digitChar {d : Nat} (hd : d < 10) : isDigit (digitChar d) = true := by
  interval_cases d <;> rfl

theorem digitVal_zero_iff {c : Char} (hc : isDigit c = true) : digitVal c = 0 ↔ c = '0' := by
  constructor
  · intro h0
    have e := digitChar_digitVal hc
    rw [h0] at e
    exact e.symm
  · intro e
    subst e
    rfl

theorem utf8Size_digit {c : Char} (hc : isDigit c = true) : c.utf8Size = 1 := by
  rw [isDigit_iff] at hc
  unfold Char.utf8Size
  have h127 : c.val ≤ 127 := by
    show c.val.toNat ≤ 127
    have : c.val.toNat = c.toNat := rfl
    omega
  simp [h127]

theorem foldl_decVal (s : GoString) (init : Nat) :
    s.foldl (fun acc c => acc * 10 + digitVal c) init = init * 10 ^ s.length + decVal s := by
  induction s generalizing init with
  | nil => simp [decVal]
  | cons c s ih =>
    have e1 := ih (init * 10 + digitVal c)
    have e2 := ih (0 * 10 + digitVal c)
    simp only [List.foldl_cons, decVal, List.length_cons] at *
    rw [e1, e2]
    ring

theorem decVal_nil : decVal [] = 0 := rfl

theorem decVal_cons (c : Char) (s : GoString) :
    decVal (c :: s) = digitVal c * 10 ^ s.length + decVal s := by
  have e := foldl_decVal s (0 * 10 + digitVal c)
  simp only [decVal, List.foldl_cons] at *
  rw [e]
  ring

theorem decVal_append (a b : GoString) :
    decVal (a ++ b) = decVal a * 10 ^ b.length + decVal b := by
  have e := foldl_decVal b (decVal a)
  unfold decVal at *
  rw [List.foldl_append, e]

theorem decVal_lt_pow {s : GoString} (hs : s.all isDigit = true) : decVal s < 10 ^ s.length := by
  induction s with
  | nil => simp [decVal]
  | cons c s ih =>
    rw [List.all_cons, Bool.and_eq_true] at hs
    have h1 := digitVal_lt hs.1
    have h2 := ih hs.2
    rw [decVal_cons, List.length_cons, pow_succ]
    nlinarith

theorem len_eq_length {s : GoString} (hs : s.all isDigit = true) : len s = s.length := by
  induction s with
  | nil => rfl
  | cons c s ih =>
    rw [List.all_cons, Bool.and_eq_true] at hs
    have := ih hs.2
    simp only [len, List.map_cons, List.sum_cons, List.length_cons] at *
    rw [utf8Size_digit hs.1, this]
    omega

end Uint256

/-! ## Reading a decimal text: `FromDecimal` -/

namespace Uint256

theorem stripZeros_decVal (s : GoString) : decVal (stripZeros s) = decVal s := by
  induction s with
  | nil => rfl
  | cons c s ih =>
    cases s with
    | nil => rfl
    | cons d cs =>
      unfold stripZeros
      split
      · next hc =>
        subst hc
        rw [ih, decVal_cons '0' (d :: cs)]
        simp [digitVal]
      · rfl

theorem stripZeros_all (s : GoString) : (stripZeros s).all isDigit = s.all isDigit := by
  induction s with
  | nil => rfl
  | cons c s ih =>
    cases s with
    | nil => rfl
    | cons d cs =>
      unfold stripZeros
      split
      · next hc =>
        subst hc
        rw [ih, List.all_cons (a := '0')]
        simp [isDigit]
      · rfl

theorem stripZeros_ne_nil {s : GoString} (hs : s ≠ []) : stripZeros s ≠ [] := by
  induction s with
  | nil => exact absurd rfl hs
  | cons c s ih =>
    cases s with
    | nil => simp [stripZeros]
    | cons d cs =>
      unfold stripZeros
      split
      · exact ih (by simp)
      · simp

theorem stripZeros_length_le (s : GoString) : (stripZeros s).length ≤ s.length := by
  induction s with
  | nil => simp [stripZeros]
  | cons c s ih =>
    cases s with
    | nil => simp [stripZeros]
    | cons d cs =>
      unfold stripZeros
      split
      · exact le_trans ih (Nat.le_succ _)
      · exact le_refl _

theorem stripZeros_head (s : GoString) :
    (stripZeros s).length ≤ 1 ∨ (stripZeros s).head? ≠ some '0' := by
  induction s with
  | nil => simp [stripZeros]
  | cons c s ih =>
    cases s with
    | nil => simp [stripZeros]
    | cons d cs =>
      unfold stripZeros
      split
      · exact ih
      · next hc =>
        right
        simpa using hc

theorem stripZeros_id {s : GoString} (hs : s.head? ≠ some '0') : stripZeros s = s := by
  cases s with
  | nil => rfl
  | cons c s =>
    cases s with
    | nil => rfl
    | cons d cs =>
      unfold stripZeros
      have hc : c ≠ '0' := by simpa using hs
      rw [if_neg hc]

theorem pow_le_decVal {s : GoString} (hs : s.all isDigit = true) (hne : s ≠ [])
    (hh : s.head? ≠ some '0') : 10 ^ (s.length - 1) ≤ decVal s := by
  cases s with
  | nil => exact absurd rfl hne
  | cons c s =>
    rw [List.all_cons, Bool.and_eq_true] at hs
    have hc : c ≠ '0' := by simpa using hh
    have h1 : digitVal c ≠ 0 := fun h0 => hc ((digitVal_zero_iff hs.1).1 h0)
    rw [decVal_cons, List.length_cons, Nat.add_sub_cancel]
    have h2 : 1 ≤ digitVal c := Nat.one_le_iff_ne_zero.2 h1
    calc 10 ^ s.length = 1 * 10 ^ s.length := (one_mul _).symm
      _ ≤ digitVal c * 10 ^ s.length := Nat.mul_le_mul_right _ h2
      _ ≤ digitVal c * 10 ^ s.length + decVal s := Nat.le_add_right _ _

theorem char_lt_iff_digitVal {c d : Char} (hc : isDigit c = true) (hd : isDigit d = true) :
    c < d ↔ digitVal c < digitVal d := by
  rw [isDigit_iff] at hc hd
  have e : c < d ↔ c.toNat < d.toNat := Iff.rfl
  rw [e]
  unfold digitVal
  omega

theorem strGt_iff {s t : GoString} (hl : s.length = t.length)
    (hs : s.all isDigit = true) (ht : t.all isDigit = true) :
    strGt s t = true ↔ decVal t < decVal s := by
  induction s generalizing t with
  | nil =>
    cases t with
    | nil => simp [strGt, decVal]
    | cons d ds => simp at hl
  | cons c cs ih =>
    cases t with
    | nil => simp at hl
    | cons d ds =>
      rw [List.all_cons, Bool.and_eq_true] at hs ht
      have hl1 : cs.length = ds.length := by simpa using hl
      have bs := decVal_lt_pow hs.2
      have bt := decVal_lt_pow ht.2
      rw [hl1] at bs
      have hdc := char_lt_iff_digitVal ht.1 hs.1
      have hcd := char_lt_iff_digitVal hs.1 ht.1
      rw [decVal_cons, decVal_cons, hl1]
      unfold strGt
      by_cases h1 : d < c
      · rw [if_pos h1]
        have := hdc.1 h1
        constructor
        · intro _
          nlinarith
        · intro _
          rfl
      · rw [if_neg h1]
        by_cases h2 : c < d
        · rw [if_pos h2]
          have := hcd.1 h2
          constructor
          · intro hf
            exact absurd hf (by simp)
          · intro hlt
            exfalso
            nlinarith
        · rw [if_neg h2, ih hl1 hs.2 ht.2]
          have e : digitVal c = digitVal d := by
            have a1 : ¬ digitVal d < digitVal c := fun h => h1 (hdc.2 h)
            have a2 : ¬ digitVal c < digitVal d := fun h => h2 (hcd.2 h)
            omega
          rw [e]
          omega

theorem twoPow256Sub1_length : twoPow256Sub1.length = 78 := by decide

theorem twoPow256Sub1_digits : twoPow256Sub1.all isDigit = true := by decide

set_option maxRecDepth 100000 in
theorem twoPow256Sub1_val : decVal twoPow256Sub1 = 2 ^ 256 - 1 := by decide

theorem twoPow256Sub1_len : len twoPow256Sub1 = 78 := by
  rw [len_eq_length twoPow256Sub1_digits, twoPow256Sub1_length]

end Uint256

namespace Uint256

theorem trimZeros_eq (s : GoString) : trimZeros s = stripZeros s := by
  cases s with
  | nil => rfl
  | cons c cs =>
    show (if c = '0' then stripZeros (c :: cs) else c :: cs) = _
    split
    · rfl
    · next hc =>
      exact (stripZeros_id (by simpa using hc)).symm

theorem trimPlus_digits {s : GoString} (hs : s.all isDigit = true) : trimPlus s = s := by
  cases s with
  | nil => rfl
  | cons c cs =>
    rw [List.all_cons, Bool.and_eq_true] at hs
    have hc : c ≠ '+' := by
      intro e
      subst e
      exact absurd hs.1 (by decide)
    show (if c = '+' then cs else c :: cs) = _
    rw [if_neg hc]

theorem trimPlus_cases (s : GoString) : s = trimPlus s ∨ s = '+' :: trimPlus s := by
  cases s with
  | nil => left; rfl
  | cons c cs =>
    show c :: cs = (if c = '+' then cs else c :: cs)
      ∨ c :: cs = '+' :: (if c = '+' then cs else c :: cs)
    split
    · next hc => right; rw [hc]
    · left; rfl

theorem fromDecimal_digits {u : GoString} (hne : u ≠ []) (hd : u.all isDigit = true) :
    fromDecimal u = .ok (ofNat (decVal u)) := by
  unfold fromDecimal
  rw [if_neg hne, if_pos hd]

theorem fromDecimal_ok {u : GoString} {v : Uint256} (h : fromDecimal u = .ok v) :
    u ≠ [] ∧ u.all isDigit = true ∧ v = ofNat (decVal u) := by
  unfold fromDecimal at h
  split at h
  · exact absurd h (by simp)
  · next hne =>
    split at h
    · next hd =>
      refine ⟨hne, hd, ?_⟩
      injection h with h
      exact h.symm
    · exact absurd h (by simp)

/-- A non-empty text of digits whose value is below `2^256` is accepted by
`FromDecimal`, with that value. -/
theorem FromDecimal_digits {t : GoString} (hne : t ≠ []) (hd : t.all isDigit = true)
    (hv : decVal t < 2 ^ 256) : FromDecimal t = .ok (ofNat (decVal t)) := by
  have hu_ne := stripZeros_ne_nil hne
  have hu_d : (stripZeros t).all isDigit = true := by rw [stripZeros_all, hd]
  have hu_v := stripZeros_decVal t
  have hfd := fromDecimal_digits hu_ne hu_d
  rw [hu_v] at hfd
  unfold FromDecimal
  simp only [trimPlus_digits hd, trimZeros_eq, twoPow256Sub1_len, len_eq_length hu_d]
  by_cases h1 : (stripZeros t).length < 78
  · rw [if_pos h1, hfd]
  · rw [if_neg h1]
    by_cases h2 : (stripZeros t).length = 78
    · rw [if_pos h2]
      have hgt : ¬ strGt (stripZeros t) twoPow256Sub1 = true := by
        rw [strGt_iff (by rw [h2, twoPow256Sub1_length]) hu_d twoPow256Sub1_digits,
          twoPow256Sub1_val, hu_v]
        omega
      rw [if_neg hgt, hfd]
    · exfalso
      have hlen : 79 ≤ (stripZeros t).length := by omega
      have hhead : (stripZeros t).head? ≠ some '0' := by
        rcases stripZeros_head t with h | h
        · omega
        · exact h
      have hlow := pow_le_decVal hu_d hu_ne hhead
      rw [hu_v] at hlow
      have hp : (10 : Nat) ^ 78 ≤ 10 ^ ((stripZeros t).length - 1) :=
        Nat.pow_le_pow_right (by norm_num) (by omega)
      have : (2 : Nat) ^ 256 < 10 ^ 78 := by norm_num
      omega

/-- A text accepted by `FromDecimal` is a non-empty text of digits, possibly
after one leading `+`. -/
theorem FromDecimal_ok {s : GoString} {v : Uint256} (h : FromDecimal s = .ok v) :
    ∃ u, u ≠ [] ∧ u.all isDigit = true ∧ (s = u ∨ s = '+' :: u) ∧ v = ofNat (decVal u) := by
  have key : fromDecimal (stripZeros (trimPlus s)) = .ok v := by
    unfold FromDecimal at h
    simp only [trimZeros_eq] at h
    split at h
    · exact h
    · split at h
      · split at h
        · exact absurd h (by simp)
        · exact h
      · exact absurd h (by simp)
  obtain ⟨hne, hd, hv⟩ := fromDecimal_ok key
  refine ⟨trimPlus s, ?_, ?_, trimPlus_cases s, ?_⟩
  · intro e
    rw [e] at hne
    exact hne rfl
  · rw [← stripZeros_all]
    exact hd
  · rw [hv, stripZeros_decVal]

end Uint256

/-! ## Splitting at the dots -/

theorem splitDot_cons_dot (cs : GoString) : splitDot ('.' :: cs) = [] :: splitDot cs := by
  simp [splitDot]

theorem splitDot_ne_nil (s : GoString) : splitDot s ≠ [] := by
  induction s with
  | nil => simp [splitDot]
  | cons c cs ih =>
    unfold splitDot
    split
    · simp
    · split <;> simp

theorem splitDot_cons_ne {c : Char} (hc : c ≠ '.') (cs : GoString) :
    ∃ p ps, splitDot cs = p :: ps ∧ splitDot (c :: cs) = (c :: p) :: ps := by
  cases hsp : splitDot cs with
  | nil => exact absurd hsp (splitDot_ne_nil cs)
  | cons p ps =>
    refine ⟨p, ps, rfl, ?_⟩
    rw [splitDot, if_neg hc, hsp]

theorem splitDot_length (s : GoString) : (splitDot s).length = s.count '.' + 1 := by
  induction s with
  | nil => simp [splitDot]
  | cons c cs ih =>
    by_cases hc : c = '.'
    · subst hc
      rw [splitDot_cons_dot, List.length_cons, ih, List.count_cons_self]
    · obtain ⟨p, ps, h1, h2⟩ := splitDot_cons_ne hc cs
      have hne : (c == '.') = false := by
        simpa using hc
      rw [h1, List.length_cons] at ih
      rw [h2, List.length_cons, List.count_cons, hne, ih]
      simp

theorem splitDot_noDot {s : GoString} (hs : '.' ∉ s) : splitDot s = [s] := by
  induction s with
  | nil => rfl
  | cons c cs ih =>
    have hc : c ≠ '.' := fun e => hs (by simp [e])
    have hcs : '.' ∉ cs := fun h => hs (List.mem_cons_of_mem _ h)
    obtain ⟨p, ps, h1, h2⟩ := splitDot_cons_ne hc cs
    rw [ih hcs] at h1
    injection h1 with hp hps
    rw [h2, ← hp, ← hps]

theorem splitDot_append {a : GoString} (ha : '.' ∉ a) (r : GoString) :
    splitDot (a ++ '.' :: r) = a :: splitDot r := by
  induction a with
  | nil => exact splitDot_cons_dot r
  | cons c cs ih =>
    have hc : c ≠ '.' := fun e => ha (by simp [e])
    have hcs : '.' ∉ cs := fun h => ha (List.mem_cons_of_mem _ h)
    obtain ⟨p, ps, h1, h2⟩ := splitDot_cons_ne hc (cs ++ '.' :: r)
    rw [ih hcs] at h1
    injection h1 with hp hps
    rw [List.cons_append, h2, ← hp, ← hps]

theorem splitDot_join (s : GoString) :
    joinDot (splitDot s) = s ∧ ∀ p ∈ splitDot s, '.' ∉ p := by
  induction s with
  | nil => simp [splitDot, joinDot]
  | cons c cs ih =>
    by_cases hc : c = '.'
    · subst hc
      rw [splitDot_cons_dot]
      constructor
      · cases hsp : splitDot cs with
        | nil => exact absurd hsp (splitDot_ne_nil cs)
        | cons q r =>
          have := ih.1
          rw [hsp] at this
          simp [joinDot, this]
      · intro p hp
        rcases List.mem_cons.1 hp with e | hp
        · rw [e]
          simp
        · exact ih.2 p hp
    · obtain ⟨p, ps, h1, h2⟩ := splitDot_cons_ne hc cs
      rw [h1] at ih
      rw [h2]
      constructor
      · have hj := ih.1
        cases ps with
        | nil =>
          simp only [joinDot] at hj ⊢
          rw [hj]
        | cons q r =>
          simp only [joinDot] at hj ⊢
          rw [← hj]
          rfl
      · intro p1 hp1
        rcases List.mem_cons.1 hp1 with e | hp1
        · rw [e]
          intro hmem
          rcases List.mem_cons.1 hmem with e2 | hmem
          · exact hc e2.symm
          · exact ih.2 p (List.mem_cons_self _ _) hmem
        · exact ih.2 p1 (List.mem_cons_of_mem _ hp1)

theorem digits_noDot {s : GoString} (hs : s.all Uint256.isDigit = true) : '.' ∉ s := by
  intro h
  have := (List.all_eq_true.1 hs) '.' h
  exact absurd this (by decide)

/-! ## Powers of ten and `NewDecimal` -/

theorem goInt_eq {i : Int} (h1 : -2 ^ 63 ≤ i) (h2 : i < 2 ^ 63) : goInt i = i := by
  unfold goInt
  rw [Int.emod_eq_of_lt (by omega) (by omega)]
  omega

/-- For an exponent `n ≥ 0` of a Go `int`, `pow10(n)` is `10^n` modulo `2^256`. -/
theorem pow10_nat (n : Nat) (hn : n < 2 ^ 63) : pow10 (n : Int) = .ok (Uint256.ofNat (10 ^ n)) := by
  unfold pow10
  rw [if_neg (by omega)]
  by_cases h18 : n ≤ 18
  · rw [if_pos (by unfold PRECISION; omega)]
    congr 1
    apply Uint256.ext
    rw [Int.toNat_ofNat, units_val h18, Uint256.ofNat_val_of_lt]
    calc 10 ^ n ≤ 10 ^ 18 := Nat.pow_le_pow_right (by norm_num) h18
      _ < 2 ^ 256 := by norm_num
  · rw [if_neg (by unfold PRECISION; omega)]
    congr 1
    apply Uint256.ext
    have e1 : ((n : Int) % 2 ^ 64).toNat = n := by
      rw [Int.emod_eq_of_lt (by omega) (by omega), Int.toNat_ofNat]
    have e2 : (Uint256.NewInt n).val = n := by
      show n % 2 ^ 64 % 2 ^ 256 = n
      rw [Nat.mod_eq_of_lt (by omega), Nat.mod_eq_of_lt (by omega)]
    have e3 : (units 1).val = 10 := rfl
    rw [e1]
    show (units 1).val ^ (Uint256.NewInt n).val % 2 ^ 256 = _
    rw [e2, e3, Uint256.ofNat_val]

/-- The function `NewDecimal` at a scale of at most 18: the magnitude is
multiplied by `10^(18 - s)`, modulo `2^256`. -/
theorem NewDecimal_le (val : Uint256) {s : Nat} (hs : s ≤ 18) :
    NewDecimal val (s : Int) = .ok (Uint256.ofNat (val.val * 10 ^ (18 - s))) := by
  unfold NewDecimal
  rw [if_neg (by unfold PRECISION; omega)]
  have e : goInt (PRECISION - (s : Int)) = ((18 - s : Nat) : Int) := by
    rw [goInt_eq (by unfold PRECISION; omega) (by unfold PRECISION; omega)]
    unfold PRECISION
    omega
  rw [e, pow10_nat _ (by omega)]
  show Except.ok _ = _
  congr 1
  apply Uint256.ext
  rw [Uint256.Mul_val, Uint256.ofNat_val, Uint256.ofNat_val, Nat.mul_mod_mod]

/-- The function `NewDecimal` at a scale above 18: the magnitude is divided by
`10^(s - 18)` taken modulo `2^256` (and the result is 0 if that is 0). -/
theorem NewDecimal_gt (val : Uint256) {s : Nat} (hs : 18 < s) (hr : s < 2 ^ 63) :
    NewDecimal val (s : Int) = .ok (Uint256.ofNat (val.val / (10 ^ (s - 18) % 2 ^ 256))) := by
  unfold NewDecimal
  rw [if_pos (by unfold PRECISION; omega)]
  have e : goInt ((s : Int) - PRECISION) = ((s - 18 : Nat) : Int) := by
    rw [goInt_eq (by unfold PRECISION; omega) (by unfold PRECISION; omega)]
    unfold PRECISION
    omega
  rw [e, pow10_nat _ (by omega)]
  show Except.ok _ = _
  congr 1
  apply Uint256.ext
  rw [Uint256.Div_val, Uint256.ofNat_val, Uint256.ofNat_val,
    Nat.mod_eq_of_lt (lt_of_le_of_lt (Nat.div_le_self _ _) val.isLt)]

/-! ## `Parse` -/

theorem bind_ok {α β : Type} {x : Except Fault α} {f : α → Except Fault β} {b : β}
    (h : x >>= f = .ok b) : ∃ a, x = .ok a ∧ f a = .ok b := by
  cases x with
  | error e => exact absurd h (by simp [bind, Except.bind])
  | ok a => exact ⟨a, rfl, h⟩

theorem Parse_one {s p : GoString} (h : splitDot s = [p]) :
    Parse s = Uint256.FromDecimal s >>= fun v => NewDecimal v 0 := by
  unfold Parse
  rw [h]

theorem Parse_two {s s0 s1 : GoString} (h : splitDot s = [s0, s1]) :
    Parse s = Uint256.FromDecimal (s0 ++ s1) >>= fun v => NewDecimal v (len s1) := by
  unfold Parse
  rw [h]

theorem Parse_many {s : GoString} (h : 3 ≤ (splitDot s).length) :
    Parse s = .error (.unsupportedFormat s) := by
  unfold Parse
  split
  · next h1 => rw [h1] at h; simp at h
  · next h1 => rw [h1] at h; simp at h
  · rfl

/-- What `Parse` returns on a non-empty digit string. -/
theorem Parse_int_val {a : GoString} (ha : a ≠ []) (had : a.all Uint256.isDigit = true)
    (hv : Uint256.decVal a * 10 ^ 18 < 2 ^ 256) :
    Parse a = .ok (Uint256.ofNat (Uint256.decVal a * 10 ^ 18)) := by
  have hva1 : Uint256.decVal a < 2 ^ 256 :=
    lt_of_le_of_lt (Nat.le_mul_of_pos_right _ (by norm_num)) hv
  rw [Parse_one (splitDot_noDot (digits_noDot had)), Uint256.FromDecimal_digits ha had hva1]
  show NewDecimal _ ((0 : Nat) : Int) = _
  rw [NewDecimal_le _ (Nat.zero_le 18), Uint256.ofNat_val_of_lt hva1]

/-- What `Parse` returns on digits, a dot, and at most 18 digits. -/
theorem Parse_frac_val {a f : GoString} (ha : a ≠ []) (had : a.all Uint256.isDigit = true)
    (hfd : f.all Uint256.isDigit = true) (hf : f.length ≤ 18)
    (hv : (Uint256.decVal a * 10 ^ f.length + Uint256.decVal f) * 10 ^ (18 - f.length)
      < 2 ^ 256) :
    Parse (a ++ '.' :: f) = .ok (Uint256.ofNat
      (Uint256.decVal a * 10 ^ 18 + Uint256.decVal f * 10 ^ (18 - f.length))) := by
  have hpos : 0 < 10 ^ (18 - f.length) := Nat.pow_pos (by norm_num)
  have hpow : 10 ^ f.length * 10 ^ (18 - f.length) = 10 ^ 18 := by
    rw [← pow_add]
    congr 1
    omega
  have hsum : (Uint256.decVal a * 10 ^ f.length + Uint256.decVal f) * 10 ^ (18 - f.length)
      = Uint256.decVal a * 10 ^ 18 + Uint256.decVal f * 10 ^ (18 - f.length) := by
    rw [add_mul, mul_assoc, hpow]
  have hval : Uint256.decVal (a ++ f) < 2 ^ 256 := by
    rw [Uint256.decVal_append]
    exact lt_of_le_of_lt (Nat.le_mul_of_pos_right _ hpos) hv
  have hsplit : splitDot (a ++ '.' :: f) = [a, f] := by
    rw [splitDot_append (digits_noDot had), splitDot_noDot (digits_noDot hfd)]
  have hall : (a ++ f).all Uint256.isDigit = true := by
    rw [List.all_append, had, hfd]
    rfl
  have hne : a ++ f ≠ [] := by simp [ha]
  rw [Parse_two hsplit, Uint256.FromDecimal_digits hne hall hval, Uint256.len_eq_length hfd]
  show NewDecimal _ _ = _
  rw [NewDecimal_le _ hf, Uint256.ofNat_val_of_lt hval, Uint256.decVal_append, hsum]

/-- The integer part of the bound on the whole value. -/
theorem int_bound_of_frac_bound {n m k : Nat} (hk : k ≤ 18)
    (hv : (n * 10 ^ k + m) * 10 ^ (18 - k) < 2 ^ 256) :
    n * 10 ^ 18 + m * 10 ^ (18 - k) < 2 ^ 256 ∧ n * 10 ^ 18 < 2 ^ 256 := by
  have hpow : 10 ^ k * 10 ^ (18 - k) = 10 ^ 18 := by
    rw [← pow_add]
    congr 1
    omega
  have hsum : (n * 10 ^ k + m) * 10 ^ (18 - k) = n * 10 ^ 18 + m * 10 ^ (18 - k) := by
    rw [add_mul, mul_assoc, hpow]
  rw [hsum] at hv
  exact ⟨hv, lt_of_le_of_lt (Nat.le_add_right _ _) hv⟩

/-- C6: for every non-empty digit string `a` and every digit string `f` of at
most 18 digits with `(N(a) * 10^|f| + N(f)) * 10^(18 - |f|) < 2^256`,
`Parse(a ++ "." ++ f)` succeeds with significand
`N(a) * 10^18 + N(f) * 10^(18 - |f|)` (the leading zeros of `f` count), and
`Parse(a)` succeeds with significand `N(a) * 10^18`. -/
theorem C6_parse_value (a f : GoString) (ha : a ≠ []) (had : a.all Uint256.isDigit = true)
    (hfd : f.all Uint256.isDigit = true) (hf : f.length ≤ 18)
    (hv : (Uint256.decVal a * 10 ^ f.length + Uint256.decVal f) * 10 ^ (18 - f.length)
      < 2 ^ 256) :
    (∃ d, Parse (a ++ '.' :: f) = .ok d
        ∧ d.val = Uint256.decVal a * 10 ^ 18 + Uint256.decVal f * 10 ^ (18 - f.length))
      ∧ (∃ d, Parse a = .ok d ∧ d.val = Uint256.decVal a * 10 ^ 18) := by
  obtain ⟨h1, h2⟩ := int_bound_of_frac_bound hf hv
  exact ⟨⟨_, Parse_frac_val ha had hfd hf hv, Uint256.ofNat_val_of_lt h1⟩,
    ⟨_, Parse_int_val ha had h2, Uint256.ofNat_val_of_lt h2⟩⟩

/-- The theorem `C6_parse_value` at `"1.05"`: the significand is
`1050000000000000000`. -/
theorem C6_parse_value_witness :
    (∃ d, Parse ("1.05".toList) = .ok d ∧ d.val = 1050000000000000000)
      ∧ (∃ d, Parse ("1".toList) = .ok d ∧ d.val = 1000000000000000000) :=
  C6_parse_value ("1".toList) ("05".toList) (by decide) (by decide) (by decide) (by decide)
    (by decide)

/-- C7, as stated, fails: `Parse("+5")` returns a Decimal (of significand
`5 * 10^18`) although `'+'` is neither a digit nor `'.'`. -/
theorem C7_plus_accepted :
    (Parse ("+5".toList)).map Uint256.val = .ok (5 * 10 ^ 18)
      ∧ Uint256.isDigit '+' = false ∧ '+' ≠ '.' ∧ '+' ∈ "+5".toList := by
  decide

/-- C7, amended: for every string `s`, if `Parse(s)` returns a Decimal without
error then `s` has at most one `'.'` and, with the `'.'` taken out, `s` is a
non-empty string of digits, possibly after one leading `'+'`. So `s` contains
a digit, and every character of `s` is a digit, `'.'` or `'+'`: the empty
string and any string with a `'-'`, an exponent marker, whitespace or a digit
separator are rejected with an error; one leading `'+'` is accepted. -/
theorem C7_parse_grammar (s : GoString) (d : Decimal) (h : Parse s = .ok d) :
    s.count '.' ≤ 1
      ∧ (∃ u, u ≠ [] ∧ u.all Uint256.isDigit = true
          ∧ (s.filter (fun c => c != '.') = u ∨ s.filter (fun c => c != '.') = '+' :: u))
      ∧ (∃ c ∈ s, Uint256.isDigit c = true)
      ∧ (∀ c ∈ s, Uint256.isDigit c = true ∨ c = '.' ∨ c = '+') := by
  have hfilter : ∀ t : GoString, '.' ∉ t → t.filter (fun c => c != '.') = t := by
    intro t ht
    rw [List.filter_eq_self]
    intro c hc
    have : c ≠ '.' := fun e => ht (e ▸ hc)
    simpa using this
  have main : s.count '.' ≤ 1 ∧ ∃ u, u ≠ [] ∧ u.all Uint256.isDigit = true
      ∧ (s.filter (fun c => c != '.') = u ∨ s.filter (fun c => c != '.') = '+' :: u) := by
    have hj := splitDot_join s
    have hlen := splitDot_length s
    cases hsp : splitDot s with
    | nil => exact absurd hsp (splitDot_ne_nil s)
    | cons p ps =>
      cases ps with
      | nil =>
        rw [hsp] at hj hlen
        have hps : p = s := hj.1
        have hnd : '.' ∉ s := hps ▸ hj.2 p (List.mem_cons_self _ _)
        rw [Parse_one hsp] at h
        obtain ⟨v, hv, _⟩ := bind_ok h
        obtain ⟨u, hu1, hu2, hu3, _⟩ := Uint256.FromDecimal_ok hv
        refine ⟨by simp at hlen; omega, u, hu1, hu2, ?_⟩
        rw [hfilter s hnd]
        exact hu3
      | cons q r =>
        cases r with
        | nil =>
          rw [hsp] at hj hlen
          have hs : p ++ '.' :: q = s := hj.1
          have hp : '.' ∉ p := hj.2 p (List.mem_cons_self _ _)
          have hq : '.' ∉ q := hj.2 q (List.mem_cons_of_mem _ (List.mem_cons_self _ _))
          rw [Parse_two hsp] at h
          obtain ⟨v, hv, _⟩ := bind_ok h
          obtain ⟨u, hu1, hu2, hu3, _⟩ := Uint256.FromDecimal_ok hv
          refine ⟨by simp at hlen; omega, u, hu1, hu2, ?_⟩
          have e : s.filter (fun c => c != '.') = p ++ q := by
            rw [← hs, List.filter_append, List.filter_cons, hfilter p hp, hfilter q hq]
            simp
          rw [e]
          exact hu3
        | cons r1 r2 =>
          have h3 : 3 ≤ (splitDot s).length := by
            rw [hsp]
            simp
          rw [Parse_many h3] at h
          exact absurd h (by simp)
  obtain ⟨hcount, u, hu1, hu2, hu3⟩ := main
  refine ⟨hcount, ⟨u, hu1, hu2, hu3⟩, ?_, ?_⟩
  · obtain ⟨c, cs, rfl⟩ := List.exists_cons_of_ne_nil hu1
    have hc : Uint256.isDigit c = true := (List.all_eq_true.1 hu2) c (List.mem_cons_self _ _)
    have hmem : c ∈ s.filter (fun c => c != '.') := by
      rcases hu3 with e | e <;> rw [e] <;> simp
    exact ⟨c, (List.mem_filter.1 hmem).1, hc⟩
  · intro c hc
    by_cases hdot : c = '.'
    · exact Or.inr (Or.inl hdot)
    · have hmem : c ∈ s.filter (fun c => c != '.') :=
        List.mem_filter.2 ⟨hc, by simpa using hdot⟩
      rcases hu3 with e | e
      · rw [e] at hmem
        exact Or.inl ((List.all_eq_true.1 hu2) c hmem)
      · rw [e] at hmem
        rcases List.mem_cons.1 hmem with e1 | hm
        · exact Or.inr (Or.inr e1)
        · exact Or.inl ((List.all_eq_true.1 hu2) c hm)

/-- The theorem `C7_parse_grammar` at `"1.5"`, which `Parse` accepts. -/
theorem C7_parse_grammar_witness :
    ("1.5".toList).count '.' ≤ 1
      ∧ (∃ u, u ≠ [] ∧ u.all Uint256.isDigit = true
          ∧ (("1.5".toList).filter (fun c => c != '.') = u
            ∨ ("1.5".toList).filter (fun c => c != '.') = '+' :: u))
      ∧ (∃ c ∈ "1.5".toList, Uint256.isDigit c = true)
      ∧ (∀ c ∈ "1.5".toList, Uint256.isDigit c = true ∨ c = '.' ∨ c = '+') :=
  C7_parse_grammar ("1.5".toList) (Uint256.ofNat (15 * 10 ^ 17)) (by decide)

/-- C8: for every string `s` with two or more `'.'` characters, whatever its
other characters, `Parse(s)` returns no Decimal: it returns the format error
built from `s`, whose message is `"unsupported fixed point format: "` followed
by `s` quoted. It is an `error` value, not a panic, and `FromDecimal` has no
part in it. -/
theorem C8_parse_many_dots (s : GoString) (h : 2 ≤ s.count '.') :
    Parse s = .error (.unsupportedFormat s)
      ∧ (∀ quote : GoString → GoString,
          Fault.message quote (.unsupportedFormat s)
            = "unsupported fixed point format: ".toList ++ quote s)
      ∧ (∀ msg, Parse s ≠ .error (.panic msg)) := by
  have h3 : 3 ≤ (splitDot s).length := by
    rw [splitDot_length]
    omega
  refine ⟨Parse_many h3, fun _ => rfl, fun msg => ?_⟩
  rw [Parse_many h3]
  simp

/-- The theorem `C8_parse_many_dots` at `"1.2.3"`. -/
theorem C8_parse_many_dots_witness :
    Parse ("1.2.3".toList) = .error (.unsupportedFormat ("1.2.3".toList))
      ∧ (∀ quote : GoString → GoString,
          Fault.message quote (.unsupportedFormat ("1.2.3".toList))
            = "unsupported fixed point format: ".toList ++ quote ("1.2.3".toList))
      ∧ (∀ msg, Parse ("1.2.3".toList) ≠ .error (.panic msg)) :=
  C8_parse_many_dots ("1.2.3".toList) (by decide)

/-! ## `NewDecimal` at a scale above 18, and scale invariance -/

/-- C9, as stated, fails: with `m = 2^256 - 1` and `inputScale = 96`
(`inputScale - 18 = 78`), `floor(m / 10^78)` is 0 because `10^78 > m`, but
`NewDecimal(m, 96)` has significand 1: the divisor is `10^78` modulo `2^256`,
which is below `m`. -/
theorem C9_wrapped_divisor :
    (Uint256.ofNat (2 ^ 256 - 1)).val = 2 ^ 256 - 1
      ∧ (2 ^ 256 - 1) / 10 ^ (96 - 18) = 0
      ∧ 2 ^ 256 - 1 < 10 ^ (96 - 18)
      ∧ (NewDecimal (Uint256.ofNat (2 ^ 256 - 1)) 96).map Uint256.val = .ok 1 := by
  decide

/-- C9, amended: for every magnitude `m < 2^256` and every `inputScale > 18`
of a Go `int`, `NewDecimal(m, inputScale)` returns without a fault and has
significand `floor(m / (10^(inputScale - 18) mod 2^256))`, which is 0 when
that divisor is 0. So for `inputScale - 18 ≤ 77` it is
`floor(m / 10^(inputScale - 18))`, truncating toward zero, and 0 whenever
`10^(inputScale - 18) > m`; and for `inputScale - 18 ≥ 256` it is 0. -/
theorem C9_newDecimal_above (m : Uint256) (n : Nat) (h18 : 18 < n) (hn : n < 2 ^ 63) :
    ∃ d, NewDecimal m (n : Int) = .ok d
      ∧ d.val = m.val / (10 ^ (n - 18) % 2 ^ 256)
      ∧ (n - 18 ≤ 77 → d.val = m.val / 10 ^ (n - 18))
      ∧ (n - 18 ≤ 77 → m.val < 10 ^ (n - 18) → d.val = 0)
      ∧ (256 ≤ n - 18 → d.val = 0) := by
  have hd : (Uint256.ofNat (m.val / (10 ^ (n - 18) % 2 ^ 256))).val
      = m.val / (10 ^ (n - 18) % 2 ^ 256) :=
    Uint256.ofNat_val_of_lt (lt_of_le_of_lt (Nat.div_le_self _ _) m.isLt)
  have hsmall : n - 18 ≤ 77 → 10 ^ (n - 18) % 2 ^ 256 = 10 ^ (n - 18) := by
    intro h
    apply Nat.mod_eq_of_lt
    calc 10 ^ (n - 18) ≤ 10 ^ 77 := Nat.pow_le_pow_right (by norm_num) h
      _ < 2 ^ 256 := by norm_num
  refine ⟨_, NewDecimal_gt m h18 hn, hd, ?_, ?_, ?_⟩
  · intro h
    rw [hd, hsmall h]
  · intro h hlt
    rw [hd, hsmall h]
    exact Nat.div_eq_of_lt hlt
  · intro h
    have hdvd : 2 ^ 256 ∣ 10 ^ (n - 18) := by
      have e : (10 : Nat) ^ (n - 18) = 2 ^ (n - 18) * 5 ^ (n - 18) := by
        rw [← mul_pow]
        norm_num
      rw [e]
      exact Dvd.dvd.mul_right (pow_dvd_pow 2 h) _
    rw [hd, Nat.mod_eq_zero_of_dvd hdvd, Nat.div_zero]

/-- The theorem `C9_newDecimal_above` at `m = 123456` and `inputScale = 20`. -/
theorem C9_newDecimal_above_witness :
    ∃ d, NewDecimal (Uint256.ofNat 123456) ((20 : Nat) : Int) = .ok d
      ∧ d.val = (Uint256.ofNat 123456).val / (10 ^ (20 - 18) % 2 ^ 256)
      ∧ (20 - 18 ≤ 77 → d.val = (Uint256.ofNat 123456).val / 10 ^ (20 - 18))
      ∧ (20 - 18 ≤ 77 → (Uint256.ofNat 123456).val < 10 ^ (20 - 18) → d.val = 0)
      ∧ (256 ≤ 20 - 18 → d.val = 0) :=
  C9_newDecimal_above (Uint256.ofNat 123456) 20 (by decide) (by decide)

/-- C10: for every magnitude `m`, scale `s ≥ 0` and `k ≥ 0` (with `s + k` a Go
`int`) such that `m * 10^k < 2^256` and no truncation occurs (`s + k ≤ 18`, or
`s + k > 18` and `10^(s + k - 18)` divides `m * 10^k`), `NewDecimal(m, s)` and
`NewDecimal(m * 10^k, s + k)` both return, with the same significand. -/
theorem C10_scale_invariance (m : Uint256) (s k : Nat) (hk : m.val * 10 ^ k < 2 ^ 256)
    (hr : s + k < 2 ^ 63)
    (hex : s + k ≤ 18 ∨ (18 < s + k ∧ 10 ^ (s + k - 18) ∣ m.val * 10 ^ k)) :
    ∃ d, NewDecimal m (s : Int) = .ok d
      ∧ NewDecimal (Uint256.ofNat (m.val * 10 ^ k)) ((s + k : Nat) : Int) = .ok d := by
  have hmk : (Uint256.ofNat (m.val * 10 ^ k)).val = m.val * 10 ^ k :=
    Uint256.ofNat_val_of_lt hk
  by_cases hsk : s + k ≤ 18
  · refine ⟨_, NewDecimal_le m (by omega), ?_⟩
    rw [NewDecimal_le _ hsk, hmk]
    congr 2
    have e : 18 - s = k + (18 - (s + k)) := by omega
    rw [e, pow_add, mul_assoc]
  · have hgt : 18 < s + k := by omega
    have hdvd : 10 ^ (s + k - 18) ∣ m.val * 10 ^ k := by
      rcases hex with h | h
      · omega
      · exact h.2
    rw [NewDecimal_gt _ hgt hr, hmk]
    by_cases hm : m.val = 0
    · by_cases hs : s ≤ 18
      · refine ⟨_, NewDecimal_le m hs, ?_⟩
        rw [hm]
        simp
      · refine ⟨_, NewDecimal_gt m (by omega) (by omega), ?_⟩
        rw [hm]
        simp
    · have hpos : 0 < m.val * 10 ^ k :=
        Nat.mul_pos (Nat.pos_of_ne_zero hm) (Nat.pow_pos (by norm_num))
      have hle : 10 ^ (s + k - 18) ≤ m.val * 10 ^ k := Nat.le_of_dvd hpos hdvd
      have hmod : 10 ^ (s + k - 18) % 2 ^ 256 = 10 ^ (s + k - 18) :=
        Nat.mod_eq_of_lt (lt_of_le_of_lt hle hk)
      rw [hmod]
      by_cases hs : s ≤ 18
      · refine ⟨_, NewDecimal_le m hs, ?_⟩
        congr 2
        have e : k = (18 - s) + (s + k - 18) := by omega
        have e2 : m.val * 10 ^ k = m.val * 10 ^ (18 - s) * 10 ^ (s + k - 18) := by
          rw [mul_assoc, ← pow_add, ← e]
        rw [e2, Nat.mul_div_cancel _ (Nat.pow_pos (by norm_num))]
      · have hs18 : 18 < s := by omega
        refine ⟨_, NewDecimal_gt m hs18 (by omega), ?_⟩
        congr 2
        have e : 10 ^ (s + k - 18) = 10 ^ (s - 18) * 10 ^ k := by
          rw [← pow_add]
          congr 1
          omega
        have hmod2 : 10 ^ (s - 18) % 2 ^ 256 = 10 ^ (s - 18) := by
          apply Nat.mod_eq_of_lt
          have : 10 ^ (s - 18) ≤ 10 ^ (s + k - 18) :=
            Nat.pow_le_pow_right (by norm_num) (by omega)
          omega
        rw [hmod2, e, Nat.mul_div_mul_right _ _ (Nat.pow_pos (by norm_num))]

/-- The theorem `C10_scale_invariance` at `m = 314`, `s = 2`, `k = 20`: both
`NewDecimal(314, 2)` and `NewDecimal(314 * 10^20, 22)` are `3.14`. -/
theorem C10_scale_invariance_witness :
    ∃ d, NewDecimal (Uint256.ofNat 314) ((2 : Nat) : Int) = .ok d
      ∧ NewDecimal (Uint256.ofNat ((Uint256.ofNat 314).val * 10 ^ 20)) ((2 + 20 : Nat) : Int)
          = .ok d :=
  C10_scale_invariance (Uint256.ofNat 314) 2 20 (by decide) (by decide)
    (Or.inr ⟨by decide, by decide⟩)

/-! ## Writing a decimal text: `Dec` and `String` -/

namespace Uint256

theorem decAux_succ_lt (fuel : Nat) {n : Nat} (acc : GoString) (hn : n < 10) :
    decAux (fuel + 1) n acc = digitChar n :: acc := by
  rw [decAux, if_pos hn]

theorem decAux_succ_ge (fuel : Nat) {n : Nat} (acc : GoString) (hn : ¬ n < 10) :
    decAux (fuel + 1) n acc = decAux fuel (n / 10) (digitChar (n % 10) :: acc) := by
  rw [decAux, if_neg hn]

/-- Writing the value of a digit string that does not start with `'0'` gives
the string back, if the fuel covers its length. -/
theorem decAux_decVal (u : GoString) :
    u.all isDigit = true → u ≠ [] → u.head? ≠ some '0' →
      1 ≤ decVal u ∧ ∀ fuel acc, u.length ≤ fuel → decAux fuel (decVal u) acc = u ++ acc := by
  induction u using List.reverseRecOn with
  | nil => intro _ h; exact absurd rfl h
  | append_singleton init c ih =>
    intro hd _ hh
    rw [List.all_append, Bool.and_eq_true] at hd
    have hc : isDigit c = true := by
      have := hd.2
      simpa using this
    have hclt := digitVal_lt hc
    have hval : decVal (init ++ [c]) = decVal init * 10 + digitVal c := by
      rw [decVal_append, decVal_cons, decVal_nil]
      simp
    by_cases hi : init = []
    · subst hi
      have hc0 : c ≠ '0' := by simpa using hh
      have h1 : digitVal c ≠ 0 := fun h0 => hc0 ((digitVal_zero_iff hc).1 h0)
      have hv : decVal ([] ++ [c]) = digitVal c := by
        rw [hval, decVal_nil]
        omega
      rw [hv]
      refine ⟨by omega, fun fuel acc hlen => ?_⟩
      cases fuel with
      | zero => simp at hlen
      | succ f =>
        rw [decAux_succ_lt f acc hclt, digitChar_digitVal hc]
        rfl
    · have hh1 : init.head? ≠ some '0' := by
        rw [List.head?_append_of_ne_nil _ hi] at hh
        exact hh
      obtain ⟨ih1, ih2⟩ := ih hd.1 hi hh1
      rw [hval]
      refine ⟨by omega, fun fuel acc hlen => ?_⟩
      cases fuel with
      | zero => simp at hlen
      | succ f =>
        have hf : init.length ≤ f := by
          simp at hlen
          omega
        have hdiv : (decVal init * 10 + digitVal c) / 10 = decVal init := by omega
        have hmod : (decVal init * 10 + digitVal c) % 10 = digitVal c := by omega
        rw [decAux_succ_ge f acc (by omega), hdiv, hmod, digitChar_digitVal hc, ih2 f _ hf]
        simp

/-- The decimal text of the value of a digit string is the string itself, if
it has no redundant leading zero and its value is below `2^256`. -/
theorem Dec_decVal {u : GoString} (hd : u.all isDigit = true) (hne : u ≠ [])
    (hh : u.length ≤ 1 ∨ u.head? ≠ some '0') (hv : decVal u < 2 ^ 256) :
    Dec (ofNat (decVal u)) = u := by
  unfold Dec
  rw [ofNat_val_of_lt hv]
  by_cases h0 : u.head? ≠ some '0'
  · have hlen : u.length ≤ 78 := by
      have hlow := pow_le_decVal hd hne h0
      by_contra hcon
      have hp : (10 : Nat) ^ 78 ≤ 10 ^ (u.length - 1) :=
        Nat.pow_le_pow_right (by norm_num) (by omega)
      have : (2 : Nat) ^ 256 < 10 ^ 78 := by norm_num
      omega
    have := (decAux_decVal u hd hne h0).2 78 [] hlen
    rw [this]
    simp
  · have hl : u.length ≤ 1 := by
      rcases hh with h | h
      · exact h
      · exact absurd h h0
    obtain ⟨c, cs, rfl⟩ := List.exists_cons_of_ne_nil hne
    have hcs : cs = [] := by
      cases cs with
      | nil => rfl
      | cons d ds => simp at hl
    subst hcs
    rw [List.all_cons, Bool.and_eq_true] at hd
    have hv1 : decVal [c] = digitVal c := by
      rw [decVal_cons, decVal_nil]
      simp
    rw [hv1, decAux_succ_lt 77 [] (digitVal_lt hd.1), digitChar_digitVal hd.1]

/-- The decimal text of the value of a digit string is the string without its
redundant leading zeros. -/
theorem Dec_decVal_strip {a : GoString} (hd : a.all isDigit = true) (hne : a ≠ [])
    (hv : decVal a < 2 ^ 256) : Dec (ofNat (decVal a)) = stripZeros a := by
  have h := Dec_decVal (u := stripZeros a) (by rw [stripZeros_all, hd]) (stripZeros_ne_nil hne)
    (stripZeros_head a) (by rw [stripZeros_decVal]; exact hv)
  rw [stripZeros_decVal] at h
  exact h

/-- With fuel for all its digits, `decAux` writes a non-empty digit string of
value `n`, without a redundant leading zero, in front of `acc`. -/
theorem decAux_spec (fuel : Nat) :
    ∀ (n : Nat) (acc : GoString), n < 10 ^ (fuel + 1) →
      ∃ u, decAux (fuel + 1) n acc = u ++ acc ∧ u.all isDigit = true ∧ decVal u = n
        ∧ u ≠ [] ∧ (u.length ≤ 1 ∨ u.head? ≠ some '0') ∧ u.length ≤ fuel + 1 := by
  induction fuel with
  | zero =>
    intro n acc hn
    have hn10 : n < 10 := by simpa using hn
    refine ⟨[digitChar n], ?_, ?_, ?_, by simp, Or.inl (by simp), by simp⟩
    · rw [decAux_succ_lt 0 acc hn10]
      rfl
    · rw [List.all_cons, isDigit_digitChar hn10]
      rfl
    · rw [decVal_cons, decVal_nil, digitVal_digitChar hn10]
      simp
  | succ f ih =>
    intro n acc hn
    by_cases hn10 : n < 10
    · refine ⟨[digitChar n], ?_, ?_, ?_, by simp, Or.inl (by simp), by simp⟩
      · rw [decAux_succ_lt (f + 1) acc hn10]
        rfl
      · rw [List.all_cons, isDigit_digitChar hn10]
        rfl
      · rw [decVal_cons, decVal_nil, digitVal_digitChar hn10]
        simp
    · have hdiv : n / 10 < 10 ^ (f + 1) := by
        rw [Nat.div_lt_iff_lt_mul (by norm_num)]
        rw [pow_succ] at hn
        exact hn
      have hmod : n % 10 < 10 := Nat.mod_lt _ (by norm_num)
      obtain ⟨u, h1, h2, h3, h4, h5, h6⟩ := ih (n / 10) (digitChar (n % 10) :: acc) hdiv
      have hpos : 1 ≤ decVal u := by
        rw [h3]
        omega
      have hhead : u.head? ≠ some '0' := by
        rcases h5 with h5 | h5
        · obtain ⟨c, cs, rfl⟩ := List.exists_cons_of_ne_nil h4
          have hcs : cs = [] := by
            cases cs with
            | nil => rfl
            | cons d ds => simp at h5
          subst hcs
          intro e
          have e' : c = '0' := by simpa using e
          subst e'
          exact absurd hpos (by decide)
        · exact h5
      refine ⟨u ++ [digitChar (n % 10)], ?_, ?_, ?_, by simp, Or.inr ?_, ?_⟩
      · rw [decAux_succ_ge (f + 1) acc hn10, h1]
        simp
      · rw [List.all_append, h2, List.all_cons, isDigit_digitChar hmod]
        rfl
      · rw [decVal_append, decVal_cons, decVal_nil, h3, digitVal_digitChar hmod]
        simp
        omega
      · rw [List.head?_append_of_ne_nil _ h4]
        exact hhead
      · simp
        omega

/-- The text `z.Dec()` is a non-empty digit string of value `z`, without a
redundant leading zero: the 78 digits of fuel are enough. -/
theorem Dec_spec (z : Uint256) :
    (Dec z).all isDigit = true ∧ decVal (Dec z) = z.val ∧ Dec z ≠ []
      ∧ ((Dec z).length ≤ 1 ∨ (Dec z).head? ≠ some '0') := by
  have hz : z.val < 10 ^ (77 + 1) := lt_trans z.isLt (by norm_num)
  obtain ⟨u, h1, h2, h3, h4, h5, _⟩ := decAux_spec 77 z.val [] hz
  have e : Dec z = u := by
    unfold Dec
    rw [h1]
    simp
  rw [e]
  exact ⟨h2, h3, h4, h5⟩

end Uint256

/-- What `String` returns: the decimal text of `sig / 10^18`, followed, when
`sig mod 10^18` is not 0, by `'.'` and the decimal text of `sig mod 10^18`. -/
theorem Decimal.String_eq (z : Decimal) :
    Decimal.String z = .ok
      (if 0 < z.val % 10 ^ 18 then
        Uint256.Dec (Uint256.ofNat (z.val / 10 ^ 18))
          ++ '.' :: Uint256.Dec (Uint256.ofNat (z.val % 10 ^ 18))
      else Uint256.Dec (Uint256.ofNat (z.val / 10 ^ 18))) := by
  have hi : Uint256.Div z (units 18) = Uint256.ofNat (z.val / 10 ^ 18) := by
    apply Uint256.ext
    rw [Uint256.Div_val, units_val (le_refl 18), Uint256.ofNat_val_of_lt]
    exact lt_of_le_of_lt (Nat.div_le_self _ _) z.isLt
  have hf : Uint256.Mod z (units 18) = Uint256.ofNat (z.val % 10 ^ 18) := by
    apply Uint256.ext
    rw [Uint256.Mod_val, units_val (le_refl 18), if_neg (by norm_num),
      Uint256.ofNat_val_of_lt]
    exact lt_of_le_of_lt (Nat.mod_le _ _) z.isLt
  have hfv : (Uint256.ofNat (z.val % 10 ^ 18)).val = z.val % 10 ^ 18 :=
    Uint256.ofNat_val_of_lt (lt_of_le_of_lt (Nat.mod_le _ _) z.isLt)
  have h0 : stringStore z 0 = z := rfl
  simp only [Decimal.String, Decimal.IntPart, Decimal.FracPart, pow10_PRECISION, bind,
    Except.bind, pure, Except.pure, Store.set, h0]
  simp only [show (0 : Nat) ≠ 1 from by decide, show (1 : Nat) ≠ 2 from by decide,
    if_true, if_false, hi, hf, Uint256.Gt, hfv]
  have hz : zero.val = 0 := rfl
  rw [hz]
  simp only [decide_eq_true_eq]
  split
  · have e : ".".toList = ['.'] := rfl
    rw [e, List.append_assoc]
    rfl
  · rfl

/-! ## Round trip through text -/

/-- C5, as stated, fails: `String(Parse("1.05"))` is `"1.50000000000000000"`,
not `"1.05"`; `String(Parse("3.140"))` is `"3.140000000000000000"`, not
`"3.14"`; and `String(Parse("1.000000000000000001"))` is `"1.1"`. -/
theorem C5_fraction_rendering :
    (Parse ("1.05".toList) >>= Decimal.String) = .ok ("1.50000000000000000".toList)
      ∧ roundTripText ("1.05".toList) = "1.05".toList
      ∧ "1.50000000000000000".toList ≠ "1.05".toList
      ∧ (Parse ("3.140".toList) >>= Decimal.String) = .ok ("3.140000000000000000".toList)
      ∧ roundTripText ("3.140".toList) = "3.14".toList
      ∧ "3.140000000000000000".toList ≠ "3.14".toList
      ∧ (Parse ("1.000000000000000001".toList) >>= Decimal.String) = .ok ("1.1".toList)
      ∧ roundTripText ("1.000000000000000001".toList) = "1.000000000000000001".toList
      ∧ "1.1".toList ≠ "1.000000000000000001".toList := by
  decide

/-- C5, amended: for every non-empty digit string `a` and every digit string
`f` of at most 18 digits whose value is representable
(`(N(a) * 10^|f| + N(f)) * 10^(18 - |f|) < 2^256`): `String(Parse(a))` is `a`
without its redundant leading zeros; if the fraction is zero,
`String(Parse(a ++ "." ++ f))` is again `a` without its redundant leading
zeros, with no `'.'`; and if `f` has exactly 18 digits, the first and the last
not `'0'`, `String(Parse(a ++ "." ++ f))` is `a` without its redundant leading
zeros, then `'.'`, then `f`. Nothing is said of the other fractions. -/
theorem C5_round_trip (a f : GoString) (ha : a ≠ []) (had : a.all Uint256.isDigit = true)
    (hfd : f.all Uint256.isDigit = true) (hf : f.length ≤ 18)
    (hv : (Uint256.decVal a * 10 ^ f.length + Uint256.decVal f) * 10 ^ (18 - f.length)
      < 2 ^ 256) :
    (Parse a >>= Decimal.String) = .ok (Uint256.stripZeros a)
      ∧ (Uint256.decVal f = 0 →
          (Parse (a ++ '.' :: f) >>= Decimal.String) = .ok (Uint256.stripZeros a))
      ∧ (f.length = 18 → f.head? ≠ some '0' → f.getLast? ≠ some '0' →
          (Parse (a ++ '.' :: f) >>= Decimal.String)
            = .ok (Uint256.stripZeros a ++ '.' :: f)) := by
  obtain ⟨h1, h2⟩ := int_bound_of_frac_bound hf hv
  have hva : Uint256.decVal a < 2 ^ 256 :=
    lt_of_le_of_lt (Nat.le_mul_of_pos_right _ (by norm_num)) h2
  have hint : (Except.ok (Uint256.ofNat (Uint256.decVal a * 10 ^ 18)) >>= Decimal.String)
      = (.ok (Uint256.stripZeros a) : Except Fault GoString) := by
    show Decimal.String _ = _
    rw [Decimal.String_eq, Uint256.ofNat_val_of_lt h2, Nat.mul_mod_left,
      if_neg (lt_irrefl 0), Nat.mul_div_cancel _ (by norm_num),
      Uint256.Dec_decVal_strip had ha hva]
  refine ⟨?_, ?_, ?_⟩
  · rw [Parse_int_val ha had h2, hint]
  · intro hzero
    rw [Parse_frac_val ha had hfd hf hv, hzero, Nat.zero_mul, Nat.add_zero, hint]
  · intro hlen hhead _
    have hfne : f ≠ [] := by
      intro e
      rw [e] at hlen
      simp at hlen
    have hflt : Uint256.decVal f < 10 ^ 18 := by
      have := Uint256.decVal_lt_pow hfd
      rw [hlen] at this
      exact this
    have hfpos : 0 < Uint256.decVal f := by
      have := Uint256.pow_le_decVal hfd hfne hhead
      have hp : 0 < 10 ^ (f.length - 1) := Nat.pow_pos (by norm_num)
      omega
    have hval : Uint256.decVal a * 10 ^ 18 + Uint256.decVal f * 10 ^ (18 - f.length)
        = Uint256.decVal a * 10 ^ 18 + Uint256.decVal f := by
      rw [hlen]
      simp
    have hlt : Uint256.decVal a * 10 ^ 18 + Uint256.decVal f < 2 ^ 256 := by
      rw [← hval]
      exact h1
    have hmod : (Uint256.decVal a * 10 ^ 18 + Uint256.decVal f) % 10 ^ 18
        = Uint256.decVal f := by
      rw [Nat.mul_add_mod_of_lt hflt]
    have hdiv : (Uint256.decVal a * 10 ^ 18 + Uint256.decVal f) / 10 ^ 18
        = Uint256.decVal a := by
      rw [Nat.add_div_of_dvd_right (Dvd.intro_left _ rfl),
        Nat.mul_div_cancel _ (by norm_num), Nat.div_eq_of_lt hflt, Nat.add_zero]
    rw [Parse_frac_val ha had hfd hf hv, hval]
    show Decimal.String _ = _
    rw [Decimal.String_eq, Uint256.ofNat_val_of_lt hlt, hmod, hdiv, if_pos hfpos,
      Uint256.Dec_decVal_strip had ha hva,
      Uint256.Dec_decVal hfd hfne (Or.inr hhead) (lt_trans hflt (by norm_num))]

/-- The theorem `C5_round_trip` at `a = "007"` and
`f = "123456789012345678"`: `"007"` gives `"7"`, and
`"007.123456789012345678"` gives `"7.123456789012345678"`. -/
theorem C5_round_trip_witness :
    (Parse ("007".toList) >>= Decimal.String) = .ok ("7".toList)
      ∧ (Parse ("007.123456789012345678".toList) >>= Decimal.String)
          = .ok ("7.123456789012345678".toList) :=
  ⟨(C5_round_trip ("007".toList) ("123456789012345678".toList) (by decide) (by decide)
      (by decide) (by decide) (by decide)).1,
    (C5_round_trip ("007".toList) ("123456789012345678".toList) (by decide) (by decide)
      (by decide) (by decide) (by decide)).2.2 (by decide) (by decide) (by decide)⟩

/-! ## `Shift` -/

/-- What `z.Shift(x, 0)` does: nothing is written. -/
theorem Decimal.Shift_zero (h : Store) (z x : Ptr) : Decimal.Shift h z x 0 = .ok h := rfl

/-- C11 at the failing input: `z` holds the significand 7 and `x` the
significand 3. `z.Shift(x, 0)` returns `z` with the significand 7, not 3,
while `z.Shift(x, 1)` leaves `3 * 10 = 30` in `z` and, for `x` of significand
30, `z.Shift(x, -1)` leaves `floor(30 / 10) = 3` in `z`. -/
theorem C11_shift_zero :
    ((Store.ofList [7, 3]) 0).val = 7
      ∧ ((Store.ofList [7, 3]) 1).val = 3
      ∧ sigAt (Decimal.Shift (Store.ofList [7, 3]) 0 1 0) 0 = .ok 7
      ∧ sigAt (Decimal.Shift (Store.ofList [7, 3]) 0 1 1) 0 = .ok 30
      ∧ sigAt (Decimal.Shift (Store.ofList [7, 30]) 0 1 (-1)) 0 = .ok 3 := by
  decide

/-! ## Identities of the arithmetic -/

/-- C12, as stated, fails: `Parse("1")` has significand `10^18`, and for `x`
of significand `2^255` the product `2^255 * 10^18` wraps to 0, so `Mul(x, one)`
has significand 0, not `2^255`. -/
theorem C12_one_wraps :
    (Parse ("1".toList)).map Uint256.val = .ok (10 ^ 18)
      ∧ ((Store.ofList [0, 2 ^ 255, 10 ^ 18]) 1).val = 2 ^ 255
      ∧ ((Store.ofList [0, 2 ^ 255, 10 ^ 18]) 2).val = 10 ^ 18
      ∧ sigAt (Decimal.Mul (Store.ofList [0, 2 ^ 255, 10 ^ 18]) 0 1 2) 0 = .ok 0 := by
  decide

/-- C12, amended: with `one = Parse("1")`, of significand `10^18`, for every
Decimal `x` and every destination, `Mul(x, one)` returns without a fault and
has significand `floor(((sig(x) * 10^18) mod 2^256) / 10^18)`; so it has the
significand of `x` whenever `sig(x) * 10^18 < 2^256`. -/
theorem C12_mul_one (h : Store) (z x y : Ptr) (hone : Parse ("1".toList) = .ok (h y)) :
    (h y).val = 10 ^ 18
      ∧ ∃ h1, Decimal.Mul h z x y = .ok h1
        ∧ (h1 z).val = ((h x).val * 10 ^ 18 % 2 ^ 256) / 10 ^ 18
        ∧ ((h x).val * 10 ^ 18 < 2 ^ 256 → (h1 z).val = (h x).val) := by
  have hy : (h y).val = 10 ^ 18 := by
    have e : Parse ("1".toList) = .ok (Uint256.ofNat (10 ^ 18)) := by decide
    rw [e] at hone
    injection hone with hone
    rw [← hone]
    rfl
  refine ⟨hy, _, Decimal.Mul_eq h z x y, ?_, ?_⟩
  · rw [Store.set_same, Uint256.Div_val, Uint256.Mul_val, units_val (le_refl 18), hy]
  · intro hlt
    rw [Store.set_same, Uint256.Div_val, Uint256.Mul_val, units_val (le_refl 18), hy,
      Nat.mod_eq_of_lt hlt, Nat.mul_div_cancel _ (by norm_num)]

/-- The theorem `C12_mul_one` at `x` of significand `25 * 10^17` (2.5). -/
theorem C12_mul_one_witness :
    ((Store.ofList [0, 25 * 10 ^ 17, 10 ^ 18]) 2).val = 10 ^ 18
      ∧ ∃ h1, Decimal.Mul (Store.ofList [0, 25 * 10 ^ 17, 10 ^ 18]) 0 1 2 = .ok h1
        ∧ (h1 0).val = (((Store.ofList [0, 25 * 10 ^ 17, 10 ^ 18]) 1).val * 10 ^ 18
            % 2 ^ 256) / 10 ^ 18
        ∧ (((Store.ofList [0, 25 * 10 ^ 17, 10 ^ 18]) 1).val * 10 ^ 18 < 2 ^ 256 →
            (h1 0).val = ((Store.ofList [0, 25 * 10 ^ 17, 10 ^ 18]) 1).val) :=
  C12_mul_one (Store.ofList [0, 25 * 10 ^ 17, 10 ^ 18]) 0 1 2 (by decide)

/-- C14: for all Decimals `x` and `y` with `sig(y) > 0`, `Mod(x, y)` written
into a fresh destination `z` has significand `sig(x) mod sig(y)`, and
`Mod(x, y).Lt(y)` is true. -/
theorem C14_mod (h : Store) (z x y : Ptr) (_hzx : z ≠ x) (hzy : z ≠ y)
    (hy : 0 < (h y).val) :
    ((Decimal.Mod h z x y) z).val = (h x).val % (h y).val
      ∧ Decimal.Lt ((Decimal.Mod h z x y) z) ((Decimal.Mod h z x y) y) = true := by
  have hz : (Decimal.Mod h z x y) z = Uint256.Mod (h x) (h y) := Store.set_same _ _ _
  have hyy : (Decimal.Mod h z x y) y = h y :=
    Store.set_other h _ (fun e => hzy e.symm)
  have hv : (Uint256.Mod (h x) (h y)).val = (h x).val % (h y).val := by
    rw [Uint256.Mod_val, if_neg (Nat.pos_iff_ne_zero.1 hy)]
  rw [hz, hyy, hv]
  refine ⟨rfl, ?_⟩
  unfold Decimal.Lt Uint256.Lt
  rw [hv]
  exact decide_eq_true (Nat.mod_lt _ hy)

/-- The theorem `C14_mod` at `x = 7` and `y = 3`, written into a third
object. -/
theorem C14_mod_witness :
    ((Decimal.Mod (Store.ofList [0, 7 * 10 ^ 18, 3 * 10 ^ 18]) 0 1 2) 0).val
        = ((Store.ofList [0, 7 * 10 ^ 18, 3 * 10 ^ 18]) 1).val
          % ((Store.ofList [0, 7 * 10 ^ 18, 3 * 10 ^ 18]) 2).val
      ∧ Decimal.Lt ((Decimal.Mod (Store.ofList [0, 7 * 10 ^ 18, 3 * 10 ^ 18]) 0 1 2) 0)
          ((Decimal.Mod (Store.ofList [0, 7 * 10 ^ 18, 3 * 10 ^ 18]) 0 1 2) 2) = true :=
  C14_mod (Store.ofList [0, 7 * 10 ^ 18, 3 * 10 ^ 18]) 0 1 2 (by decide) (by decide)
    (by decide)

/-! ## Comparisons -/

/-- C15: for all Decimals `x` and `y` exactly one of `x.Lt(y)`,
`sig(x) = sig(y)`, `x.Gt(y)` holds; `x.Gte(y)` is the negation of `x.Lt(y)` and
`x.Lte(y)` the negation of `x.Gt(y)`; and `Gt`, `Gte`, `Lt`, `Lte` are the
orders `>`, `≥`, `<`, `≤` on the significands. -/
theorem C15_comparisons (x y : Decimal) :
    ((Decimal.Lt x y = true ∧ x.val ≠ y.val ∧ Decimal.Gt x y = false)
        ∨ (Decimal.Lt x y = false ∧ x.val = y.val ∧ Decimal.Gt x y = false)
        ∨ (Decimal.Lt x y = false ∧ x.val ≠ y.val ∧ Decimal.Gt x y = true))
      ∧ Decimal.Gte x y = !Decimal.Lt x y
      ∧ Decimal.Lte x y = !Decimal.Gt x y
      ∧ (Decimal.Gt x y = true ↔ y.val < x.val)
      ∧ (Decimal.Gte x y = true ↔ y.val ≤ x.val)
      ∧ (Decimal.Lt x y = true ↔ x.val < y.val)
      ∧ (Decimal.Lte x y = true ↔ x.val ≤ y.val) := by
  have hgt : Decimal.Gt x y = true ↔ y.val < x.val := by
    simp [Decimal.Gt, Uint256.Gt]
  have hlt : Decimal.Lt x y = true ↔ x.val < y.val := by
    simp [Decimal.Lt, Uint256.Lt]
  have hgte : Decimal.Gte x y = true ↔ y.val ≤ x.val := by
    simp [Decimal.Gte, Uint256.Lt]
  have hlte : Decimal.Lte x y = true ↔ x.val ≤ y.val := by
    simp [Decimal.Lte, Uint256.Gt]
  refine ⟨?_, rfl, rfl, hgt, hgte, hlt, hlte⟩
  rcases Nat.lt_trichotomy x.val y.val with hc | hc | hc
  · left
    refine ⟨hlt.2 hc, Nat.ne_of_lt hc, ?_⟩
    rw [← Bool.not_eq_true, hgt]
    omega
  · right; left
    refine ⟨?_, hc, ?_⟩
    · rw [← Bool.not_eq_true, hlt]
      omega
    · rw [← Bool.not_eq_true, hgt]
      omega
  · right; right
    refine ⟨?_, (Nat.ne_of_lt hc).symm, hgt.2 hc⟩
    rw [← Bool.not_eq_true, hlt]
    omega

/-! ## Division after multiplication -/

/-- C13, as stated, fails: with `sig(x) = 5` and `sig(y) = 1` no product
wraps, `Mul(x, y)` has significand `floor(5 * 1 / 10^18) = 0` and
`Div(Mul(x, y), y)` has significand 0, which differs from 5 by more than 1.
And with `sig(x) = 2^255`, `sig(y) = 10^18` the product wraps and the result is
0 again. -/
theorem C13_far_from_x :
    ((Store.ofList [0, 5, 1]) 1).val = 5
      ∧ ((Store.ofList [0, 5, 1]) 2).val = 1
      ∧ sigAt (Decimal.Mul (Store.ofList [0, 5, 1]) 0 1 2 >>= fun h1 => Decimal.Div h1 0 0 2) 0
          = .ok 0
      ∧ sigAt (Decimal.Mul (Store.ofList [0, 2 ^ 255, 10 ^ 18]) 0 1 2
          >>= fun h1 => Decimal.Div h1 0 0 2) 0 = .ok 0 := by
  decide

/-- C13, amended: for all Decimals `x` and `y` with `sig(y) ≠ 0` and
`sig(x) * sig(y) < 2^256`, `Mul(x, y)` written into a destination `t` other
than `y`, followed by `Div(t, y)` written into a destination `z` other than
`y`, returns without a fault and leaves in `z` a significand `d` with
`sig(x) - 1 - floor((10^18 - 2) / sig(y)) ≤ d ≤ sig(x)`. So `d` is `sig(x)` or
`sig(x) - 1` whenever `sig(y) ≥ 10^18 - 1`, in particular for every `y` that is
at least one. -/
theorem C13_div_mul (h : Store) (t z x y : Ptr) (hty : t ≠ y) (hzy : z ≠ y)
    (hy : (h y).val ≠ 0) (hxy : (h x).val * (h y).val < 2 ^ 256) :
    ∃ h1 h2, Decimal.Mul h t x y = .ok h1 ∧ Decimal.Div h1 z t y = .ok h2
      ∧ (h2 z).val ≤ (h x).val
      ∧ (h x).val ≤ (h2 z).val + 1 + (10 ^ 18 - 2) / (h y).val
      ∧ (10 ^ 18 - 1 ≤ (h y).val → (h x).val ≤ (h2 z).val + 1) := by
  have hyt : y ≠ t := fun e => hty e.symm
  refine ⟨_, _, Decimal.Mul_eq h t x y, Decimal.Div_eq_of_ne _ z t y hzy, ?_⟩
  rw [Store.set_same, Store.set_same, Store.set_other h _ hyt, Uint256.Div_val,
    Uint256.Mul_val, Uint256.Div_val, Uint256.Mul_val, units_val (le_refl 18),
    Nat.mod_eq_of_lt hxy]
  have hm : (h x).val * (h y).val / 10 ^ 18 * 10 ^ 18 ≤ (h x).val * (h y).val :=
    Nat.div_mul_le_self _ _
  rw [Nat.mod_eq_of_lt (lt_of_le_of_lt hm hxy)]
  have hypos : 0 < (h y).val := Nat.pos_of_ne_zero hy
  have hlt : (h x).val * (h y).val
      < 10 ^ 18 * ((h x).val * (h y).val / 10 ^ 18 + 1) :=
    Nat.lt_mul_div_succ _ (by norm_num)
  have hlt2 : (h x).val * (h y).val
      < (h x).val * (h y).val / 10 ^ 18 * 10 ^ 18 + 10 ^ 18 := by
    have e2 : 10 ^ 18 * ((h x).val * (h y).val / 10 ^ 18 + 1)
        = (h x).val * (h y).val / 10 ^ 18 * 10 ^ 18 + 10 ^ 18 := by ring
    rw [e2] at hlt
    exact hlt
  generalize (h x).val * (h y).val / 10 ^ 18 * 10 ^ 18 = m at hm hlt2 ⊢
  have hd : m < (h y).val * (m / (h y).val + 1) := Nat.lt_mul_div_succ _ hypos
  have hk : 10 ^ 18 - 2 < (h y).val * ((10 ^ 18 - 2) / (h y).val + 1) :=
    Nat.lt_mul_div_succ _ hypos
  have hbound : (h x).val ≤ m / (h y).val + 1 + (10 ^ 18 - 2) / (h y).val := by
    have hprod : (h x).val * (h y).val
        < (m / (h y).val + 1 + (10 ^ 18 - 2) / (h y).val + 1) * (h y).val := by
      have e3 : (m / (h y).val + 1 + (10 ^ 18 - 2) / (h y).val + 1) * (h y).val
          = (h y).val * (m / (h y).val + 1)
            + (h y).val * ((10 ^ 18 - 2) / (h y).val + 1) := by ring
      rw [e3]
      omega
    exact Nat.le_of_lt_succ (Nat.lt_of_mul_lt_mul_right hprod)
  refine ⟨?_, hbound, ?_⟩
  · calc m / (h y).val ≤ (h x).val * (h y).val / (h y).val := Nat.div_le_div_right hm
      _ = (h x).val := Nat.mul_div_cancel _ hypos
  · intro hbig
    have hzero : (10 ^ 18 - 2) / (h y).val = 0 := Nat.div_eq_of_lt (by omega)
    rw [hzero] at hbound
    exact hbound

/-- The theorem `C13_div_mul` at `x = 1/3` (significand `333333333333333333`)
and `y = 3`. -/
theorem C13_div_mul_witness :
    ∃ h1 h2, Decimal.Mul (Store.ofList [0, 333333333333333333, 3 * 10 ^ 18]) 0 1 2 = .ok h1
      ∧ Decimal.Div h1 0 0 2 = .ok h2
      ∧ (h2 0).val ≤ ((Store.ofList [0, 333333333333333333, 3 * 10 ^ 18]) 1).val
      ∧ ((Store.ofList [0, 333333333333333333, 3 * 10 ^ 18]) 1).val
          ≤ (h2 0).val + 1
            + (10 ^ 18 - 2) / ((Store.ofList [0, 333333333333333333, 3 * 10 ^ 18]) 2).val
      ∧ (10 ^ 18 - 1 ≤ ((Store.ofList [0, 333333333333333333, 3 * 10 ^ 18]) 2).val →
          ((Store.ofList [0, 333333333333333333, 3 * 10 ^ 18]) 1).val ≤ (h2 0).val + 1) :=
  C13_div_mul (Store.ofList [0, 333333333333333333, 3 * 10 ^ 18]) 0 0 1 2 (by decide)
    (by decide) (by decide) (by decide)

/-! ## Reaching the abort of `pow10` -/

theorem len_append (a b : GoString) : len (a ++ b) = len a + len b := by
  simp [len, List.map_append, List.sum_append]

theorem len_cons_le (c : Char) (s : GoString) : len s ≤ len (c :: s) := by
  simp [len]

theorem fromDecimal_not_panic (s : GoString) (msg : String) :
    Uint256.fromDecimal s ≠ .error (.panic msg) := by
  unfold Uint256.fromDecimal
  split
  · simp
  · split <;> simp

theorem FromDecimal_not_panic (s : GoString) (msg : String) :
    Uint256.FromDecimal s ≠ .error (.panic msg) := by
  unfold Uint256.FromDecimal
  simp only
  split
  · exact fromDecimal_not_panic _ msg
  · split
    · split
      · simp
      · exact fromDecimal_not_panic _ msg
    · simp

/-- For an exponent `i` with `0 ≤ i < 2^63`, `pow10(i)` returns. -/
theorem pow10_int_ok {i : Int} (h0 : 0 ≤ i) (h1 : i < 2 ^ 63) :
    pow10 i = .ok (Uint256.ofNat (10 ^ i.toNat)) := by
  have e : i = (i.toNat : Int) := (Int.toNat_of_nonneg h0).symm
  have hn : i.toNat < 2 ^ 63 := by omega
  rw [e, pow10_nat _ hn, Int.toNat_ofNat]

/-- For an exponent `i < 0`, `pow10(i)` panics. -/
theorem pow10_neg {i : Int} (h : i < 0) : pow10 i = .error (.panic "negative precision") := by
  unfold pow10
  rw [if_pos h]

/-- The function `NewDecimal` returns for every `prec` of a Go `int` above
`-2^63 + 18`. -/
theorem NewDecimal_ok (val : Uint256) {prec : Int} (h1 : -2 ^ 63 + 18 < prec)
    (h2 : prec < 2 ^ 63) : ∃ d, NewDecimal val prec = .ok d := by
  unfold NewDecimal
  by_cases hp : prec > PRECISION
  · rw [if_pos hp]
    have hp18 : 18 < prec := hp
    rw [goInt_eq (by unfold PRECISION; omega) (by unfold PRECISION; omega),
      pow10_int_ok (by unfold PRECISION; omega) (by unfold PRECISION; omega)]
    exact ⟨_, rfl⟩
  · rw [if_neg hp]
    have hp18 : prec ≤ 18 := not_lt.1 hp
    rw [goInt_eq (by unfold PRECISION; omega) (by unfold PRECISION; omega),
      pow10_int_ok (by unfold PRECISION; omega) (by unfold PRECISION; omega)]
    exact ⟨_, rfl⟩

/-- The function `NewDecimal` panics for the 19 values of `prec` from `-2^63`
to `-2^63 + 18`: the exponent `18 - prec` wraps to a negative `int`. -/
theorem NewDecimal_panic (val : Uint256) {prec : Int} (h1 : -2 ^ 63 ≤ prec)
    (h2 : prec ≤ -2 ^ 63 + 18) :
    NewDecimal val prec = .error (.panic "negative precision") := by
  unfold NewDecimal
  rw [if_neg (by unfold PRECISION; omega)]
  have e : goInt (PRECISION - prec) < 0 := by
    unfold goInt PRECISION
    omega
  rw [pow10_neg e]
  rfl

/-- The function `Parse` never panics on a string whose length is a Go
`int`. -/
theorem Parse_not_panic (s : GoString) (hs : (len s : Int) < 2 ^ 63) (msg : String) :
    Parse s ≠ .error (.panic msg) := by
  have hnd : ∀ (v : Uint256) (n : Nat), (n : Int) < 2 ^ 63 →
      NewDecimal v (n : Int) ≠ .error (.panic msg) := by
    intro v n hn
    obtain ⟨d, hd⟩ := @NewDecimal_ok v (n : Int) (by omega) hn
    rw [hd]
    simp
  have hbind : ∀ (t : GoString) (n : Nat), (n : Int) < 2 ^ 63 →
      (Uint256.FromDecimal t >>= fun v => NewDecimal v (n : Int)) ≠ .error (.panic msg) := by
    intro t n hn
    cases hfd : Uint256.FromDecimal t with
    | error e =>
      intro hcon
      have : (Except.error e : Except Fault Decimal) = .error (.panic msg) := hcon
      injection this with this
      exact FromDecimal_not_panic t msg (by rw [hfd, this])
    | ok v => exact hnd v n hn
  have hj := splitDot_join s
  cases hsp : splitDot s with
  | nil => exact absurd hsp (splitDot_ne_nil s)
  | cons p ps =>
    cases ps with
    | nil =>
      rw [Parse_one hsp]
      exact hbind s 0 (by norm_num)
    | cons q r =>
      cases r with
      | nil =>
        rw [Parse_two hsp]
        rw [hsp] at hj
        have hs1 : p ++ '.' :: q = s := hj.1
        have hle : len q ≤ len s := by
          rw [← hs1, len_append]
          exact le_trans (len_cons_le '.' q) (Nat.le_add_left _ _)
        exact hbind (p ++ q) (len q) (by omega)
      | cons r1 r2 =>
        have h3 : 3 ≤ (splitDot s).length := by
          rw [hsp]
          simp
        rw [Parse_many h3]
        simp

/-- The method `Shift` returns for every `shift` of a Go `int` other than
`-2^63`. -/
theorem Shift_ok (h : Store) (z x : Ptr) {shift : Int} (h1 : -2 ^ 63 < shift)
    (h2 : shift < 2 ^ 63) : ∃ h1, Decimal.Shift h z x shift = .ok h1 := by
  unfold Decimal.Shift
  by_cases h0 : shift = 0
  · rw [if_pos h0]
    exact ⟨_, rfl⟩
  · rw [if_neg h0]
    by_cases hpos : shift > 0
    · rw [if_pos hpos, pow10_int_ok (le_of_lt hpos) h2]
      exact ⟨_, rfl⟩
    · rw [if_neg hpos, goInt_eq (by omega) (by omega), pow10_int_ok (by omega) (by omega)]
      exact ⟨_, rfl⟩

/-- C16, as stated, fails: `NewDecimal(1, -2^63)` panics with "negative
precision", because `18 - prec` wraps to `-2^63 + 18`; and `z.Shift(x, -2^63)`
panics, because `-shift` wraps to `-2^63`. -/
theorem C16_min_int_panics :
    NewDecimal (Uint256.ofNat 1) (-2 ^ 63) = .error (.panic "negative precision")
      ∧ goInt (PRECISION - (-2 ^ 63)) = -2 ^ 63 + 18
      ∧ sigAt (Decimal.Shift (Store.ofList [0, 1]) 0 1 (-2 ^ 63)) 0
          = .error (.panic "negative precision")
      ∧ goInt (-(-2 ^ 63)) = -2 ^ 63 := by
  decide

/-- C16, amended: `pow10` is called with a negative exponent, and panics,
exactly for `NewDecimal` with `prec` from `-2^63` to `-2^63 + 18` (where
`18 - prec` wraps) and for `Shift` with `shift = -2^63` (where `-shift` wraps).
For every other `prec` and `shift` of a Go `int`, for `Parse` on every string,
and for `String`, `IntPart`, `FracPart`, `Mul` and `Div` on every input, the
abort is not reached: `NewDecimal`, `Shift`, `String`, `IntPart`, `FracPart`,
`Mul` and `Div` return, and `Parse` returns a Decimal or an `error`. -/
theorem C16_abort_reach :
    (∀ (val : Uint256) (prec : Int), -2 ^ 63 + 18 < prec → prec < 2 ^ 63 →
        ∃ d, NewDecimal val prec = .ok d)
      ∧ (∀ (val : Uint256) (prec : Int), -2 ^ 63 ≤ prec → prec ≤ -2 ^ 63 + 18 →
        NewDecimal val prec = .error (.panic "negative precision"))
      ∧ (∀ (s : GoString), (len s : Int) < 2 ^ 63 → ∀ msg, Parse s ≠ .error (.panic msg))
      ∧ (∀ (h : Store) (z x : Ptr) (shift : Int), -2 ^ 63 < shift → shift < 2 ^ 63 →
        ∃ h1, Decimal.Shift h z x shift = .ok h1)
      ∧ (∀ (h : Store) (z x : Ptr),
        Decimal.Shift h z x (-2 ^ 63) = .error (.panic "negative precision"))
      ∧ (∀ z : Decimal, ∃ t, Decimal.String z = .ok t)
      ∧ (∀ (h : Store) (z x : Ptr), ∃ h1, Decimal.IntPart h z x = .ok h1)
      ∧ (∀ (h : Store) (z x : Ptr), ∃ h1, Decimal.FracPart h z x = .ok h1)
      ∧ (∀ (h : Store) (z x y : Ptr), ∃ h1, Decimal.Mul h z x y = .ok h1)
      ∧ (∀ (h : Store) (z x y : Ptr), ∃ h1, Decimal.Div h z x y = .ok h1) := by
  refine ⟨fun val prec h1 h2 => NewDecimal_ok val h1 h2,
    fun val prec h1 h2 => NewDecimal_panic val h1 h2,
    fun s hs msg => Parse_not_panic s hs msg,
    fun h z x shift h1 h2 => Shift_ok h z x h1 h2, ?_,
    fun z => ⟨_, Decimal.String_eq z⟩, fun h z x => ⟨_, rfl⟩, fun h z x => ⟨_, rfl⟩,
    fun h z x y => ⟨_, Decimal.Mul_eq h z x y⟩, fun h z x y => ⟨_, rfl⟩⟩
  intro h z x
  have e : goInt (-(-2 ^ 63)) < 0 := by decide
  unfold Decimal.Shift
  rw [if_neg (by decide), if_neg (by decide), pow10_neg e]
  rfl

/-- The theorem `C16_abort_reach` at `NewDecimal(5, -3)`, `Parse("1.5")` and
`z.Shift(x, -2)`. -/
theorem C16_abort_reach_witness :
    (∃ d, NewDecimal (Uint256.ofNat 5) (-3) = .ok d)
      ∧ (∀ msg, Parse ("1.5".toList) ≠ .error (.panic msg))
      ∧ (∃ h1, Decimal.Shift (Store.ofList [0, 1]) 0 1 (-2) = .ok h1) :=
  ⟨C16_abort_reach.1 (Uint256.ofNat 5) (-3) (by decide) (by decide),
    C16_abort_reach.2.2.1 ("1.5".toList) (by decide),
    C16_abort_reach.2.2.2.1 (Store.ofList [0, 1]) 0 1 (-2) (by decide) (by decide)⟩

/-! ## The text written by `String` -/

theorem digitChar_eq {d : Nat} (hd : d < 10) : Nat.digitChar d = Uint256.digitChar d := by
  interval_cases d <;> rfl

theorem toDigitsCore_eq_decAux (fuel : Nat) :
    ∀ (n : Nat) (acc : GoString),
      Nat.toDigitsCore 10 fuel n acc = Uint256.decAux fuel n acc := by
  induction fuel with
  | zero => intro n acc; rfl
  | succ f ih =>
    intro n acc
    rw [Nat.toDigitsCore.eq_2, digitChar_eq (Nat.mod_lt n (by norm_num))]
    by_cases hn : n < 10
    · rw [if_pos (Nat.div_eq_of_lt hn), Uint256.decAux_succ_lt f acc hn,
        Nat.mod_eq_of_lt hn]
    · have hdiv : n / 10 ≠ 0 := by omega
      rw [if_neg hdiv, Uint256.decAux_succ_ge f acc hn, ih]

/-- The text `z.Dec()` is the shortest base-10 rendering of `z`. -/
theorem Dec_eq_shortestDecimal (z : Uint256) : Uint256.Dec z = shortestDecimal z.val := by
  unfold shortestDecimal Nat.toDigits
  rw [toDigitsCore_eq_decAux]
  obtain ⟨u, h1, h2, h3, h4, h5, _⟩ :=
    Uint256.decAux_spec z.val z.val []
      (Nat.lt_of_lt_of_le (Nat.lt_pow_self (a := 10) (by norm_num) z.val)
        (Nat.pow_le_pow_right (by norm_num) (Nat.le_succ _)))
  rw [h1, List.append_nil]
  have hu := Uint256.Dec_decVal h2 h4 h5 (by rw [h3]; exact z.isLt)
  rw [h3, Uint256.ofNat_self] at hu
  exact hu

/-- C17: for every Decimal `d` with `q = sig(d) / 10^18` and
`r = sig(d) mod 10^18`, `String(d)` is `dec(q)` when `r = 0` and
`dec(q) ++ "." ++ dec(r)` when `r ≠ 0`, where `dec` is the shortest base-10
rendering (a digit string of that value with no redundant leading zero),
neither padded nor stripped; significand 0 renders as `"0"`, significand 5 as
`"0.5"`; and the two calls that `String` makes write into new objects and
leave `d` as it was. -/
theorem C17_string_natural (d : Decimal) :
    (d.val % 10 ^ 18 = 0 → Decimal.String d = .ok (shortestDecimal (d.val / 10 ^ 18)))
      ∧ (d.val % 10 ^ 18 ≠ 0 → Decimal.String d
          = .ok (shortestDecimal (d.val / 10 ^ 18)
              ++ '.' :: shortestDecimal (d.val % 10 ^ 18)))
      ∧ (∀ n, n < 2 ^ 256 → (shortestDecimal n).all Uint256.isDigit = true
          ∧ Uint256.decVal (shortestDecimal n) = n
          ∧ ((shortestDecimal n).length = 1 ∨ (shortestDecimal n).head? ≠ some '0'))
      ∧ Decimal.String (Uint256.ofNat 0) = .ok ("0".toList)
      ∧ Decimal.String (Uint256.ofNat 5) = .ok ("0.5".toList)
      ∧ (∃ h1 h2, Decimal.IntPart (stringStore d) 1 0 = .ok h1
          ∧ Decimal.FracPart h1 2 0 = .ok h2 ∧ h2 0 = d) := by
  have hq : (Uint256.ofNat (d.val / 10 ^ 18)).val = d.val / 10 ^ 18 :=
    Uint256.ofNat_val_of_lt (lt_of_le_of_lt (Nat.div_le_self _ _) d.isLt)
  have hr : (Uint256.ofNat (d.val % 10 ^ 18)).val = d.val % 10 ^ 18 :=
    Uint256.ofNat_val_of_lt (lt_of_le_of_lt (Nat.mod_le _ _) d.isLt)
  refine ⟨?_, ?_, ?_, by decide, by decide, ⟨_, _, rfl, rfl, rfl⟩⟩
  · intro h0
    rw [Decimal.String_eq, if_neg (by omega), Dec_eq_shortestDecimal, hq]
  · intro h0
    rw [Decimal.String_eq, if_pos (by omega), Dec_eq_shortestDecimal, Dec_eq_shortestDecimal,
      hq, hr]
  · intro n hn
    have hs := Uint256.Dec_spec (Uint256.ofNat n)
    rw [Dec_eq_shortestDecimal, Uint256.ofNat_val_of_lt hn] at hs
    refine ⟨hs.1, hs.2.1, ?_⟩
    rcases hs.2.2.2 with hl | hh
    · left
      have : (shortestDecimal n).length ≠ 0 := fun e => hs.2.2.1 (List.length_eq_zero.1 e)
      omega
    · exact Or.inr hh

/-- The theorem `C17_string_natural` at the Decimals `3` and `1.05`: the texts
are `"3"` and `"1.50000000000000000"`. -/
theorem C17_string_natural_witness :
    Decimal.String (Uint256.ofNat (3 * 10 ^ 18)) = .ok ("3".toList)
      ∧ Decimal.String (Uint256.ofNat 1050000000000000000)
          = .ok ("1.50000000000000000".toList) :=
  ⟨(C17_string_natural (Uint256.ofNat (3 * 10 ^ 18))).1 (by decide),
    (C17_string_natural (Uint256.ofNat 1050000000000000000)).2.1 (by decide)⟩

/-! ## Exact products and quotients -/

theorem ok_inj {α : Type} {a b : α} (h : (Except.ok a : Except Fault α) = .ok b) : a = b := by
  injection h

/-- C18: for all Decimals `x`, `y` with `sig(x) * sig(y) < 2^256`, `Mul(x, y)`
has significand `floor(sig(x) * sig(y) / 10^18)`; for all `x`, `y` with
`sig(x) * 10^18 < 2^256` and `sig(y) ≠ 0`, `Div(x, y)` into a fresh destination
has significand `floor(sig(x) * 10^18 / sig(y))`. And `Mul(Parse("1.5"),
Parse("2"))` is `Parse("3")`, `Div(Parse("10"), Parse("4"))` is `Parse("2.5")`,
`Mod(Parse("7"), Parse("3"))` is `Parse("1")`. -/
theorem C18_exact_when_fits (h : Store) (z x y : Ptr) :
    ((h x).val * (h y).val < 2 ^ 256 →
        ∃ h1, Decimal.Mul h z x y = .ok h1
          ∧ (h1 z).val = (h x).val * (h y).val / 10 ^ 18)
      ∧ ((h x).val * 10 ^ 18 < 2 ^ 256 → (h y).val ≠ 0 → z ≠ x → z ≠ y →
        ∃ h1, Decimal.Div h z x y = .ok h1
          ∧ (h1 z).val = (h x).val * 10 ^ 18 / (h y).val)
      ∧ (Parse ("1.5".toList) = .ok (h x) → Parse ("2".toList) = .ok (h y) →
        ∃ h1, Decimal.Mul h z x y = .ok h1 ∧ Parse ("3".toList) = .ok (h1 z))
      ∧ (Parse ("10".toList) = .ok (h x) → Parse ("4".toList) = .ok (h y) → z ≠ y →
        ∃ h1, Decimal.Div h z x y = .ok h1 ∧ Parse ("2.5".toList) = .ok (h1 z))
      ∧ (Parse ("7".toList) = .ok (h x) → Parse ("3".toList) = .ok (h y) →
        Parse ("1".toList) = .ok ((Decimal.Mod h z x y) z)) := by
  refine ⟨?_, ?_, ?_, ?_, ?_⟩
  · intro hlt
    refine ⟨_, Decimal.Mul_eq h z x y, ?_⟩
    rw [Store.set_same, Uint256.Div_val, Uint256.Mul_val, units_val (le_refl 18),
      Nat.mod_eq_of_lt hlt]
  · intro hlt _ _ hzy
    refine ⟨_, Decimal.Div_eq_of_ne h z x y hzy, ?_⟩
    rw [Store.set_same, Uint256.Div_val, Uint256.Mul_val, units_val (le_refl 18),
      Nat.mod_eq_of_lt hlt]
  · intro hx hy
    have ex : Parse ("1.5".toList) = .ok (Uint256.ofNat (15 * 10 ^ 17)) := by decide
    have ey : Parse ("2".toList) = .ok (Uint256.ofNat (2 * 10 ^ 18)) := by decide
    rw [ex] at hx
    rw [ey] at hy
    refine ⟨_, Decimal.Mul_eq h z x y, ?_⟩
    rw [Store.set_same, ← ok_inj hx, ← ok_inj hy]
    decide
  · intro hx hy hzy
    have ex : Parse ("10".toList) = .ok (Uint256.ofNat (10 * 10 ^ 18)) := by decide
    have ey : Parse ("4".toList) = .ok (Uint256.ofNat (4 * 10 ^ 18)) := by decide
    rw [ex] at hx
    rw [ey] at hy
    refine ⟨_, Decimal.Div_eq_of_ne h z x y hzy, ?_⟩
    rw [Store.set_same, ← ok_inj hx, ← ok_inj hy]
    decide
  · intro hx hy
    have ex : Parse ("7".toList) = .ok (Uint256.ofNat (7 * 10 ^ 18)) := by decide
    have ey : Parse ("3".toList) = .ok (Uint256.ofNat (3 * 10 ^ 18)) := by decide
    rw [ex] at hx
    rw [ey] at hy
    have hz : (Decimal.Mod h z x y) z = Uint256.Mod (h x) (h y) := Store.set_same _ _ _
    rw [hz, ← ok_inj hx, ← ok_inj hy]
    decide

/-- The theorem `C18_exact_when_fits` at `x = 1.5` and `y = 2`, written into
a third object: the product is `Parse("3")`. -/
theorem C18_exact_when_fits_witness :
    (∃ h1, Decimal.Mul (Store.ofList [0, 15 * 10 ^ 17, 2 * 10 ^ 18]) 0 1 2 = .ok h1
        ∧ (h1 0).val = ((Store.ofList [0, 15 * 10 ^ 17, 2 * 10 ^ 18]) 1).val
            * ((Store.ofList [0, 15 * 10 ^ 17, 2 * 10 ^ 18]) 2).val / 10 ^ 18)
      ∧ (∃ h1, Decimal.Mul (Store.ofList [0, 15 * 10 ^ 17, 2 * 10 ^ 18]) 0 1 2 = .ok h1
        ∧ Parse ("3".toList) = .ok (h1 0)) :=
  ⟨(C18_exact_when_fits (Store.ofList [0, 15 * 10 ^ 17, 2 * 10 ^ 18]) 0 1 2).1 (by decide),
    (C18_exact_when_fits (Store.ofList [0, 15 * 10 ^ 17, 2 * 10 ^ 18]) 0 1 2).2.2.1
      (by decide) (by decide)⟩

/-! ## Reading back the text written by `String` -/

/-- A digit string of positive value without a redundant leading zero does not
start with `'0'`. -/
theorem head_ne_zero_of_pos {u : GoString} (hne : u ≠ [])
    (hc : u.length ≤ 1 ∨ u.head? ≠ some '0') (hpos : 0 < Uint256.decVal u) :
    u.head? ≠ some '0' := by
  rcases hc with hc | hc
  · obtain ⟨c, cs, rfl⟩ := List.exists_cons_of_ne_nil hne
    have hcs : cs = [] := by
      cases cs with
      | nil => rfl
      | cons d ds => simp at hc
    subst hcs
    intro e
    have e' : c = '0' := by simpa using e
    subst e'
    exact absurd hpos (by decide)
  · exact hc

/-- The text `z.Dec()` of a positive `z` below `10^k` has at most `k` digits,
and it has `k` digits exactly when `z ≥ 10^(k-1)`. -/
theorem Dec_length {z : Uint256} (hpos : 0 < z.val) {k : Nat} (hk : z.val < 10 ^ k) :
    (Uint256.Dec z).length ≤ k
      ∧ ((Uint256.Dec z).length = k ↔ 10 ^ (k - 1) ≤ z.val) := by
  obtain ⟨h1, h2, h3, h4⟩ := Uint256.Dec_spec z
  have hhead := head_ne_zero_of_pos h3 h4 (by rw [h2]; exact hpos)
  have hlow := Uint256.pow_le_decVal h1 h3 hhead
  have hup := Uint256.decVal_lt_pow h1
  rw [h2] at hlow hup
  have hlen1 : 1 ≤ (Uint256.Dec z).length := by
    cases hD : Uint256.Dec z with
    | nil => exact absurd hD h3
    | cons c cs => simp
  have hle : (Uint256.Dec z).length - 1 < k :=
    (Nat.pow_lt_pow_iff_right (by norm_num : 1 < 10)).1 (lt_of_le_of_lt hlow hk)
  refine ⟨by omega, ?_, ?_⟩
  · intro e
    rw [← e]
    exact hlow
  · intro hge
    have : k - 1 < (Uint256.Dec z).length :=
      (Nat.pow_lt_pow_iff_right (by norm_num : 1 < 10)).1 (lt_of_le_of_lt hge hup)
    omega

/-- What `Parse` returns on digits, a dot, and at most 18 digits, when the
scaled value may wrap. -/
theorem Parse_frac_mod {a f : GoString} (ha : a ≠ []) (had : a.all Uint256.isDigit = true)
    (hfd : f.all Uint256.isDigit = true) (hf : f.length ≤ 18)
    (hval : Uint256.decVal (a ++ f) < 2 ^ 256) :
    Parse (a ++ '.' :: f)
      = .ok (Uint256.ofNat (Uint256.decVal (a ++ f) * 10 ^ (18 - f.length))) := by
  have hsplit : splitDot (a ++ '.' :: f) = [a, f] := by
    rw [splitDot_append (digits_noDot had), splitDot_noDot (digits_noDot hfd)]
  have hall : (a ++ f).all Uint256.isDigit = true := by
    rw [List.all_append, had, hfd]
    rfl
  have hne : a ++ f ≠ [] := by simp [ha]
  rw [Parse_two hsplit, Uint256.FromDecimal_digits hne hall hval, Uint256.len_eq_length hfd]
  show NewDecimal _ _ = _
  rw [NewDecimal_le _ hf, Uint256.ofNat_val_of_lt hval]

/-- C19: for every Decimal `d` with `r = sig(d) mod 10^18`, `String(d)`
returns a text that `Parse` accepts, and the significand of the Decimal read
back equals `sig(d)` if and only if `r = 0` or `r ≥ 10^17`. -/
theorem C19_reparse (d : Decimal) :
    ∃ t d1, Decimal.String d = .ok t ∧ Parse t = .ok d1
      ∧ (d1.val = d.val ↔ (d.val % 10 ^ 18 = 0 ∨ 10 ^ 17 ≤ d.val % 10 ^ 18)) := by
  have hdm : 10 ^ 18 * (d.val / 10 ^ 18) + d.val % 10 ^ 18 = d.val := Nat.div_add_mod _ _
  have hq : (Uint256.ofNat (d.val / 10 ^ 18)).val = d.val / 10 ^ 18 :=
    Uint256.ofNat_val_of_lt (lt_of_le_of_lt (Nat.div_le_self _ _) d.isLt)
  have hr : (Uint256.ofNat (d.val % 10 ^ 18)).val = d.val % 10 ^ 18 :=
    Uint256.ofNat_val_of_lt (lt_of_le_of_lt (Nat.mod_le _ _) d.isLt)
  obtain ⟨a1, a2, a3, _⟩ := Uint256.Dec_spec (Uint256.ofNat (d.val / 10 ^ 18))
  rw [hq] at a2
  have hdlt := d.isLt
  by_cases h0 : d.val % 10 ^ 18 = 0
  · have hqd : d.val / 10 ^ 18 * 10 ^ 18 = d.val := by omega
    refine ⟨Uint256.Dec (Uint256.ofNat (d.val / 10 ^ 18)), Uint256.ofNat d.val, ?_, ?_, ?_⟩
    · rw [Decimal.String_eq, if_neg (by omega)]
    · rw [Parse_int_val a3 a1 (by rw [a2, hqd]; exact hdlt), a2, hqd]
    · rw [Uint256.ofNat_val_of_lt hdlt]
      exact ⟨fun _ => Or.inl h0, fun _ => rfl⟩
  · have hrpos : 0 < d.val % 10 ^ 18 := Nat.pos_of_ne_zero h0
    have hrlt : d.val % 10 ^ 18 < 10 ^ 18 := Nat.mod_lt _ (by norm_num)
    obtain ⟨f1, f2, f3, _⟩ := Uint256.Dec_spec (Uint256.ofNat (d.val % 10 ^ 18))
    rw [hr] at f2
    obtain ⟨hlen, hlen18⟩ :=
      Dec_length (z := Uint256.ofNat (d.val % 10 ^ 18)) (by rw [hr]; exact hrpos) (k := 18)
        (by rw [hr]; exact hrlt)
    rw [hr] at hlen18
    have hup := Uint256.decVal_lt_pow f1
    rw [f2] at hup
    generalize hF : Uint256.Dec (Uint256.ofNat (d.val % 10 ^ 18)) = F at *
    generalize hA : Uint256.Dec (Uint256.ofNat (d.val / 10 ^ 18)) = A at *
    have hpowle : 10 ^ F.length ≤ 10 ^ 18 := Nat.pow_le_pow_right (by norm_num) hlen
    have hpowsplit : 10 ^ F.length * 10 ^ (18 - F.length) = 10 ^ 18 := by
      rw [← pow_add]
      congr 1
      omega
    have hval : Uint256.decVal (A ++ F) < 2 ^ 256 := by
      rw [Uint256.decVal_append, a2, f2]
      have : d.val / 10 ^ 18 * 10 ^ F.length ≤ d.val / 10 ^ 18 * 10 ^ 18 :=
        Nat.mul_le_mul_left _ hpowle
      omega
    have hV : Uint256.decVal (A ++ F) * 10 ^ (18 - F.length)
        = d.val / 10 ^ 18 * 10 ^ 18 + d.val % 10 ^ 18 * 10 ^ (18 - F.length) := by
      rw [Uint256.decVal_append, a2, f2, add_mul, mul_assoc, hpowsplit]
    refine ⟨A ++ '.' :: F, _, ?_, Parse_frac_mod a3 a1 f1 hlen hval, ?_⟩
    · rw [Decimal.String_eq, if_pos hrpos, hA, hF]
    · rw [Uint256.ofNat_val, hV]
      constructor
      · intro heq
        right
        by_contra hcon
        have hL : F.length ≠ 18 := fun e => hcon (hlen18.1 e)
        have hj : 1 ≤ 18 - F.length := by omega
        have h10 : 10 ≤ 10 ^ (18 - F.length) := by
          calc 10 = 10 ^ 1 := by norm_num
            _ ≤ 10 ^ (18 - F.length) := Nat.pow_le_pow_right (by norm_num) hj
        have hWlt : d.val % 10 ^ 18 * 10 ^ (18 - F.length) < 10 ^ 18 := by
          calc d.val % 10 ^ 18 * 10 ^ (18 - F.length)
              < 10 ^ F.length * 10 ^ (18 - F.length) :=
                Nat.mul_lt_mul_of_pos_right hup (Nat.pow_pos (by norm_num))
            _ = 10 ^ 18 := hpowsplit
        have hWgt : d.val % 10 ^ 18 < d.val % 10 ^ 18 * 10 ^ (18 - F.length) := by
          calc d.val % 10 ^ 18 = d.val % 10 ^ 18 * 1 := (mul_one _).symm
            _ < d.val % 10 ^ 18 * 10 ^ (18 - F.length) :=
                Nat.mul_lt_mul_of_pos_left (by omega) hrpos
        have hle : d.val
            ≤ d.val / 10 ^ 18 * 10 ^ 18 + d.val % 10 ^ 18 * 10 ^ (18 - F.length) := by
          omega
        have hmodeq : d.val ≡
            d.val / 10 ^ 18 * 10 ^ 18 + d.val % 10 ^ 18 * 10 ^ (18 - F.length)
              [MOD 2 ^ 256] := by
          unfold Nat.ModEq
          rw [heq, Nat.mod_eq_of_lt hdlt]
        have hdvd := (Nat.modEq_iff_dvd' hle).1 hmodeq
        have hpos : 0 < d.val / 10 ^ 18 * 10 ^ 18
            + d.val % 10 ^ 18 * 10 ^ (18 - F.length) - d.val := by omega
        have hMle := Nat.le_of_dvd hpos hdvd
        have : (10 : Nat) ^ 18 < 2 ^ 256 := by norm_num
        omega
      · intro hor
        have hge : 10 ^ 17 ≤ d.val % 10 ^ 18 := by
          rcases hor with h | h
          · exact absurd h h0
          · exact h
        have hL : F.length = 18 := hlen18.2 hge
        rw [hL]
        simp only [Nat.sub_self, pow_zero, mul_one]
        rw [Nat.mod_eq_of_lt (by omega)]
        omega

/-- What `String` returns, split at the dots: the text of the integer part,
and the text of the fraction when it is not 0. -/
theorem String_split (d : Decimal) :
    ∃ t, Decimal.String d = .ok t
      ∧ ((d.val % 10 ^ 18 = 0
          ∧ splitDot t = [Uint256.Dec (Uint256.ofNat (d.val / 10 ^ 18))])
        ∨ (0 < d.val % 10 ^ 18
          ∧ splitDot t = [Uint256.Dec (Uint256.ofNat (d.val / 10 ^ 18)),
              Uint256.Dec (Uint256.ofNat (d.val % 10 ^ 18))])) := by
  have a1 := (Uint256.Dec_spec (Uint256.ofNat (d.val / 10 ^ 18))).1
  have f1 := (Uint256.Dec_spec (Uint256.ofNat (d.val % 10 ^ 18))).1
  refine ⟨_, Decimal.String_eq d, ?_⟩
  by_cases hpos : 0 < d.val % 10 ^ 18
  · right
    rw [if_pos hpos, splitDot_append (digits_noDot a1), splitDot_noDot (digits_noDot f1)]
    exact ⟨hpos, rfl⟩
  · left
    rw [if_neg hpos, splitDot_noDot (digits_noDot a1)]
    exact ⟨by omega, rfl⟩

/-- C20: for all Decimals `d1` and `d2`, if `String(d1) = String(d2)` then
`sig(d1) = sig(d2)`. -/
theorem C20_string_injective (d1 d2 : Decimal) (h : Decimal.String d1 = Decimal.String d2) :
    d1.val = d2.val := by
  have hval : ∀ n, n < 2 ^ 256 →
      Uint256.decVal (Uint256.Dec (Uint256.ofNat n)) = n := by
    intro n hn
    rw [(Uint256.Dec_spec (Uint256.ofNat n)).2.1, Uint256.ofNat_val_of_lt hn]
  have hq1 : d1.val / 10 ^ 18 < 2 ^ 256 := lt_of_le_of_lt (Nat.div_le_self _ _) d1.isLt
  have hq2 : d2.val / 10 ^ 18 < 2 ^ 256 := lt_of_le_of_lt (Nat.div_le_self _ _) d2.isLt
  have hr1 : d1.val % 10 ^ 18 < 2 ^ 256 := lt_of_le_of_lt (Nat.mod_le _ _) d1.isLt
  have hr2 : d2.val % 10 ^ 18 < 2 ^ 256 := lt_of_le_of_lt (Nat.mod_le _ _) d2.isLt
  have e1 : 10 ^ 18 * (d1.val / 10 ^ 18) + d1.val % 10 ^ 18 = d1.val := Nat.div_add_mod _ _
  have e2 : 10 ^ 18 * (d2.val / 10 ^ 18) + d2.val % 10 ^ 18 = d2.val := Nat.div_add_mod _ _
  obtain ⟨t1, ht1, hs1⟩ := String_split d1
  obtain ⟨t2, ht2, hs2⟩ := String_split d2
  rw [ht1, ht2] at h
  have ht : t1 = t2 := ok_inj h
  subst ht
  rcases hs1 with ⟨hz1, hsp1⟩ | ⟨hp1, hsp1⟩ <;> rcases hs2 with ⟨hz2, hsp2⟩ | ⟨hp2, hsp2⟩
  · rw [hsp1] at hsp2
    injection hsp2 with hA _
    have hq := congrArg Uint256.decVal hA
    rw [hval _ hq1, hval _ hq2] at hq
    omega
  · rw [hsp1] at hsp2
    injection hsp2 with _ hrest
    exact absurd hrest (by simp)
  · rw [hsp1] at hsp2
    injection hsp2 with _ hrest
    exact absurd hrest (by simp)
  · rw [hsp1] at hsp2
    injection hsp2 with hA hrest
    injection hrest with hF _
    have hq := congrArg Uint256.decVal hA
    have hr := congrArg Uint256.decVal hF
    rw [hval _ hq1, hval _ hq2] at hq
    rw [hval _ hr1, hval _ hr2] at hr
    omega

/-- The theorem `C20_string_injective` at two Decimals built from `5` and
from `2^256 + 5`, which write the same text `"0.5"`. -/
theorem C20_string_injective_witness :
    (Uint256.ofNat 5).val = (Uint256.ofNat (2 ^ 256 + 5)).val :=
  C20_string_injective (Uint256.ofNat 5) (Uint256.ofNat (2 ^ 256 + 5)) (by decide)

end Decimal18
